import Mathlib

/-!
# LC-3 virtual machine (`main.c`): shallow embedding and verified properties

The C program keeps its whole state in one `vmState` (65536 memory words and ten
register slots) and talks to the host through `select`, `getchar`, `putc`, `puts`
and `printf`.  Here

* a `uint16_t` is a `Nat`; every place where C truncates to 16 bits is an explicit
  `% 65536`;
* the arrays `memory` and `regstr` are functions `Nat → Nat`, an assignment to an element
  is `Function.update`;
* the host terminal is the explicit value `Terminal`;
* the body of the `while (isRunning)` loop of `main` is the function `step`.
-/

namespace LC3

/-! ## Enumerations of `main.c` -/

abbrev MEMORY_MAX : Nat := 1 <<< 16

abbrev R_R0 : Nat := 0
abbrev R_R1 : Nat := 1
abbrev R_R2 : Nat := 2
abbrev R_R3 : Nat := 3
abbrev R_R4 : Nat := 4
abbrev R_R5 : Nat := 5
abbrev R_R6 : Nat := 6
abbrev R_R7 : Nat := 7
/-- Slot of the program counter in `regstr`. -/
abbrev R_PC : Nat := 8
/-- Slot of the condition tracker in `regstr`. -/
abbrev R_CD : Nat := 9
/-- Number of register slots. -/
abbrev R_CT : Nat := 10

abbrev COND_P : Nat := 1 <<< 0
abbrev COND_Z : Nat := 1 <<< 1
abbrev COND_N : Nat := 1 <<< 2

abbrev OP_BR : Nat := 0
abbrev OP_ADD : Nat := 1
abbrev OP_LD : Nat := 2
abbrev OP_ST : Nat := 3
abbrev OP_JSR : Nat := 4
abbrev OP_AND : Nat := 5
abbrev OP_LDR : Nat := 6
abbrev OP_STR : Nat := 7
abbrev OP_RTI : Nat := 8
abbrev OP_NOT : Nat := 9
abbrev OP_LDI : Nat := 10
abbrev OP_STI : Nat := 11
abbrev OP_JMP : Nat := 12
abbrev OP_RES : Nat := 13
abbrev OP_LEA : Nat := 14
abbrev OP_TRAP : Nat := 15

/-- Keyboard status address. -/
abbrev MR_KBSR : Nat := 0xFE00
/-- Keyboard data address. -/
abbrev MR_KBDR : Nat := 0xFE02

abbrev TRAP_GETC : Nat := 0x20
abbrev TRAP_OUT : Nat := 0x21
abbrev TRAP_PUTS : Nat := 0x22
abbrev TRAP_IN : Nat := 0x23
abbrev TRAP_PUTSP : Nat := 0x24
abbrev TRAP_HALT : Nat := 0x25

/-! ## State -/

/-- The `struct lc3memory` of `main.c`: `memory[MEMORY_MAX]` and `regstr[R_CT]`. -/
structure vmState where
  memory : Nat → Nat
  regstr : Nat → Nat

/-- The host terminal as the program sees it.  `ready` lists the answers the successive
zero-timeout `select` polls of `checkKeys` will give, `stdin` the bytes the successive
`getchar` calls will deliver (a blocking read simply takes the next one; the empty list is
end of input), `stdout` the bytes written so far. -/
structure Terminal where
  ready : List Bool
  stdin : List Nat
  stdout : List Nat

/-- The emulator together with its terminal. -/
structure Machine where
  vm : vmState
  tty : Terminal

/-- How one pass through the body of the `while (isRunning)` loop ends. -/
inductive Status where
  /-- The variable `isRunning` is still 1: the loop goes on. -/
  | running
  /-- The variable `isRunning` was set to 0 (`TRAP_HALT`). -/
  | halted
  /-- The call `abort()` was reached. -/
  | aborted
  /-- A string trap moved its pointer past `memory[MEMORY_MAX - 1]` before finding a zero
  word: the C program reads outside the array, which the language leaves undefined. -/
  | fault
  deriving DecidableEq, Repr

/-- Every memory word and every register slot holds a 16-bit value, as the C type
`uint16_t` guarantees. -/
def vmState.WF (vm : vmState) : Prop :=
  (∀ a, vm.memory a < 65536) ∧ (∀ r, vm.regstr r < 65536)

/-! ## C conversions and the host calls -/

/-- Conversion of an `int` to `uint16_t`. -/
def toUint16 (i : Int) : Nat := (i % 65536).toNat

/-- Conversion of an `int` to `char`; whether `char` is signed is left to the platform by
the C language, so it is a parameter. -/
def toChar (char_signed : Bool) (i : Int) : Int :=
  if char_signed then (i + 128) % 256 - 128 else i % 256

/-- The call `checkKeys()`: one non-blocking poll. -/
def checkKeys (t : Terminal) : Bool × Terminal :=
  match t.ready with
  | [] => (false, t)
  | b :: rest => (b, { t with ready := rest })

/-- The call `getchar()`: the next byte of the input, or `EOF` (-1) at end of input. -/
def getchar (t : Terminal) : Int × Terminal :=
  match t.stdin with
  | [] => (-1, t)
  | c :: rest => ((c : Int), { t with stdin := rest })

/-- The call `putc(c, stdout)`: writes `c` converted to `unsigned char`. -/
def putc (c : Int) (t : Terminal) : Terminal :=
  { t with stdout := t.stdout ++ [(c % 256).toNat] }

/-- Writing a sequence of bytes (`printf` of a literal, `puts`). -/
def writeBytes (bs : List Nat) (t : Terminal) : Terminal :=
  { t with stdout := t.stdout ++ bs }

/-- The bytes of the literal `"Enter a character: "`. -/
def promptBytes : List Nat :=
  [69, 110, 116, 101, 114, 32, 97, 32, 99, 104, 97, 114, 97, 99, 116, 101, 114, 58, 32]

/-- The bytes written by `puts("HALT")`: the text and a newline. -/
def haltBytes : List Nat := [72, 65, 76, 84, 10]

/-! ## Memory bus -/

/-- The assignment `vmState->regstr[r] = v`. -/
def setReg (vm : vmState) (r v : Nat) : vmState :=
  { vm with regstr := Function.update vm.regstr r v }

/-- `mem_write`: `vmState->memory[address] = val`. -/
def mem_write (vm : vmState) (address val : Nat) : vmState :=
  { vm with memory := Function.update vm.memory address val }

/-- `mem_read`: a read of `MR_KBSR` first polls the keyboard. -/
def mem_read (m : Machine) (address : Nat) : Nat × Machine :=
  if address = MR_KBSR then
    if (checkKeys m.tty).1 then
      let vm1 := mem_write m.vm MR_KBSR (1 <<< 15)
      let g := getchar (checkKeys m.tty).2
      let vm2 := mem_write vm1 MR_KBDR (toUint16 g.1)
      (vm2.memory address, { vm := vm2, tty := g.2 })
    else
      let vm1 := mem_write m.vm MR_KBSR 0
      (vm1.memory address, { vm := vm1, tty := (checkKeys m.tty).2 })
  else
    (m.vm.memory address, m)

/-! ## Helper functions -/

/-- `sign_extend`: the operand `0xFFFF << bit_count` is an `int`, the result of `|=` is
stored back into the `uint16_t x`. -/
def sign_extend (x : Nat) (bit_count : Nat) : Nat :=
  if (x >>> (bit_count - 1)) &&& 1 ≠ 0 then
    (x ||| (0xFFFF <<< bit_count)) % 65536
  else
    x

/-- `swap16`. -/
def swap16 (x : Nat) : Nat :=
  ((x <<< 8) ||| (x >>> 8)) % 65536

/-- `update_flags`. -/
def update_flags (vm : vmState) (regId : Nat) : vmState :=
  if vm.regstr regId = 0 then
    setReg vm R_CD COND_Z
  else if vm.regstr regId >>> 15 ≠ 0 then
    setReg vm R_CD COND_N
  else
    setReg vm R_CD COND_P

/-! ## Instruction handlers (the `case`s of the opcode `switch` in `main`) -/

/-- `case OP_ADD`. -/
def op_add (instr : Nat) (vm : vmState) : vmState :=
  let dr := (instr >>> 9) &&& 0b111
  let sr1 := (instr >>> 6) &&& 0b111
  let flag := (instr >>> 5) &&& 0b1
  if flag ≠ 0 then
    let imm5 := sign_extend (instr &&& 0x1F) 5
    update_flags (setReg vm dr ((vm.regstr sr1 + imm5) % 65536)) dr
  else
    let sr2 := instr &&& 0b111
    update_flags (setReg vm dr ((vm.regstr sr1 + vm.regstr sr2) % 65536)) dr

/-- `case OP_AND`. -/
def op_and (instr : Nat) (vm : vmState) : vmState :=
  let dr := (instr >>> 9) &&& 0b111
  let sr1 := (instr >>> 6) &&& 0b111
  let flag := (instr >>> 5) &&& 0b1
  if flag ≠ 0 then
    let imm5 := sign_extend (instr &&& 0x1F) 5
    update_flags (setReg vm dr (vm.regstr sr1 &&& imm5)) dr
  else
    let sr2 := instr &&& 0b111
    update_flags (setReg vm dr (vm.regstr sr1 &&& vm.regstr sr2)) dr

/-- `case OP_BR`. -/
def op_br (instr : Nat) (vm : vmState) : vmState :=
  let pcOffset := sign_extend (instr &&& 0x1ff) 9
  let condFlag := (instr >>> 9) &&& 0b111
  if condFlag &&& vm.regstr R_CD ≠ 0 then
    setReg vm R_PC ((vm.regstr R_PC + pcOffset) % 65536)
  else
    vm

/-- `case OP_NOT`: `~` on the promoted value, stored back into a `uint16_t`. -/
def op_not (instr : Nat) (vm : vmState) : vmState :=
  let dr := (instr >>> 9) &&& 0x7
  let sr1 := (instr >>> 6) &&& 0x7
  update_flags (setReg vm dr (toUint16 (-(vm.regstr sr1 : Int) - 1))) dr

/-- `case OP_JMP`. -/
def op_jmp (instr : Nat) (vm : vmState) : vmState :=
  let r1 := (instr >>> 6) &&& 0x7
  setReg vm R_PC (vm.regstr r1)

/-- `case OP_JSR`. -/
def op_jsr (instr : Nat) (vm : vmState) : vmState :=
  let lFlag := (instr >>> 11) &&& 0b1
  let vm1 := setReg vm R_R7 (vm.regstr R_PC)
  if lFlag ≠ 0 then
    let lPcOffset := sign_extend (instr &&& 0x7ff) 11
    setReg vm1 R_PC ((vm1.regstr R_PC + lPcOffset) % 65536)
  else
    let tr := (instr >>> 6) &&& 0b111
    setReg vm1 R_PC (vm1.regstr tr)

/-- `case OP_LD`. -/
def op_ld (instr : Nat) (m : Machine) : Machine :=
  let tr := (instr >>> 9) &&& 0b111
  let pcOffset := sign_extend (instr &&& 0x1ff) 9
  let r := mem_read m ((m.vm.regstr R_PC + pcOffset) % 65536)
  { r.2 with vm := update_flags (setReg r.2.vm tr r.1) tr }

/-- `case OP_LDI`. -/
def op_ldi (instr : Nat) (m : Machine) : Machine :=
  let tr := (instr >>> 9) &&& 0x7
  let pcOffset := sign_extend (instr &&& 0x1ff) 9
  let r1 := mem_read m ((m.vm.regstr R_PC + pcOffset) % 65536)
  let r2 := mem_read r1.2 r1.1
  { r2.2 with vm := update_flags (setReg r2.2.vm tr r2.1) tr }

/-- `case OP_LDR`. -/
def op_ldr (instr : Nat) (m : Machine) : Machine :=
  let dr := (instr >>> 9) &&& 0b111
  let sr1 := (instr >>> 6) &&& 0b111
  let offset := sign_extend (instr &&& 0x3f) 6
  let r := mem_read m ((m.vm.regstr sr1 + offset) % 65536)
  { r.2 with vm := update_flags (setReg r.2.vm dr r.1) dr }

/-- `case OP_LEA`. -/
def op_lea (instr : Nat) (vm : vmState) : vmState :=
  let tr := (instr >>> 9) &&& 0b111
  let pcOffset := sign_extend (instr &&& 0x1ff) 9
  update_flags (setReg vm tr ((vm.regstr R_PC + pcOffset) % 65536)) tr

/-- `case OP_ST`. -/
def op_st (instr : Nat) (vm : vmState) : vmState :=
  let tr := (instr >>> 9) &&& 0b111
  let pc_offset := sign_extend (instr &&& 0x1FF) 9
  mem_write vm ((vm.regstr R_PC + pc_offset) % 65536) (vm.regstr tr)

/-- `case OP_STI`. -/
def op_sti (instr : Nat) (m : Machine) : Machine :=
  let tr := (instr >>> 9) &&& 0b111
  let pcOffset := sign_extend (instr &&& 0x1FF) 9
  let r := mem_read m ((m.vm.regstr R_PC + pcOffset) % 65536)
  { r.2 with vm := mem_write r.2.vm r.1 (r.2.vm.regstr tr) }

/-- `case OP_STR`. -/
def op_str (instr : Nat) (vm : vmState) : vmState :=
  let tr := (instr >>> 9) &&& 0x7
  let tr1 := (instr >>> 6) &&& 0x7
  let offset := sign_extend (instr &&& 0x3F) 6
  mem_write vm ((vm.regstr tr1 + offset) % 65536) (vm.regstr tr)

/-! ## Trap routines (the `case`s of the inner `switch` of `case OP_TRAP`) -/

/-- The `while (*c)` loop of `case TRAP_PUTS`.  The pointer is at `memory + c`; the third
argument is the number of words of the array from there to its end, so reaching 0 means
the next read would be outside `memory`. -/
def puts_loop (char_signed : Bool) (memory : Nat → Nat) : Nat → Nat → Terminal → Option Terminal
  | _, 0, _ => none
  | c, n + 1, t =>
    if memory c ≠ 0 then
      puts_loop char_signed memory (c + 1) n (putc (toChar char_signed (memory c)) t)
    else
      some t

/-- One pass of the body of the `while (*c)` loop of `case TRAP_PUTSP` on the word `w`. -/
def putsp_body (char_signed : Bool) (w : Nat) (t : Terminal) : Terminal :=
  let char1 := toChar char_signed ((w &&& 0xFF : Nat) : Int)
  let t1 := putc char1 t
  let char2 := toChar char_signed ((w >>> 8 : Nat) : Int)
  if char2 ≠ 0 then putc char2 t1 else t1

/-- The `while (*c)` loop of `case TRAP_PUTSP`, arguments as for `puts_loop`. -/
def putsp_loop (char_signed : Bool) (memory : Nat → Nat) : Nat → Nat → Terminal → Option Terminal
  | _, 0, _ => none
  | c, n + 1, t =>
    if memory c ≠ 0 then
      putsp_loop char_signed memory (c + 1) n (putsp_body char_signed (memory c) t)
    else
      some t

/-- `case OP_TRAP`. -/
def op_trap (char_signed : Bool) (instr : Nat) (m : Machine) : Status × Machine :=
  let vm := setReg m.vm R_R7 (m.vm.regstr R_PC)
  let vect := instr &&& 0xFF
  if vect = TRAP_GETC then
    let g := getchar m.tty
    (Status.running, { vm := update_flags (setReg vm R_R0 (toUint16 g.1)) R_R0, tty := g.2 })
  else if vect = TRAP_OUT then
    (Status.running, { vm := vm, tty := putc (toChar char_signed (vm.regstr R_R0)) m.tty })
  else if vect = TRAP_PUTS then
    match puts_loop char_signed vm.memory (vm.regstr R_R0) (MEMORY_MAX - vm.regstr R_R0) m.tty with
    | some t => (Status.running, { vm := vm, tty := t })
    | none => (Status.fault, { vm := vm, tty := m.tty })
  else if vect = TRAP_IN then
    let t1 := writeBytes promptBytes m.tty
    let g := getchar t1
    let c := toChar char_signed g.1
    let t2 := putc c g.2
    (Status.running, { vm := update_flags (setReg vm R_R0 (toUint16 c)) R_R0, tty := t2 })
  else if vect = TRAP_PUTSP then
    match putsp_loop char_signed vm.memory (vm.regstr R_R0) (MEMORY_MAX - vm.regstr R_R0) m.tty with
    | some t => (Status.running, { vm := vm, tty := t })
    | none => (Status.fault, { vm := vm, tty := m.tty })
  else if vect = TRAP_HALT then
    (Status.halted, { vm := vm, tty := writeBytes haltBytes m.tty })
  else
    (Status.running, { vm := vm, tty := m.tty })

/-! ## The fetch-decode-execute loop of `main` -/

/-- The word fetched by `vmState->memory[vmState->regstr[R_PC]++]`. -/
def fetch (m : Machine) : Nat :=
  m.vm.memory (m.vm.regstr R_PC)

/-- The state right after the fetch: only `regstr[R_PC]` has changed, by `++`. -/
def afterFetch (m : Machine) : Machine :=
  { m with vm := setReg m.vm R_PC ((m.vm.regstr R_PC + 1) % 65536) }

/-- One pass through the body of `while (isRunning)`. -/
def step (char_signed : Bool) (m : Machine) : Status × Machine :=
  let instr := fetch m
  let m1 := afterFetch m
  let opcode := instr >>> 12
  if opcode = OP_ADD then (Status.running, { m1 with vm := op_add instr m1.vm })
  else if opcode = OP_AND then (Status.running, { m1 with vm := op_and instr m1.vm })
  else if opcode = OP_BR then (Status.running, { m1 with vm := op_br instr m1.vm })
  else if opcode = OP_NOT then (Status.running, { m1 with vm := op_not instr m1.vm })
  else if opcode = OP_JMP then (Status.running, { m1 with vm := op_jmp instr m1.vm })
  else if opcode = OP_JSR then (Status.running, { m1 with vm := op_jsr instr m1.vm })
  else if opcode = OP_LD then (Status.running, op_ld instr m1)
  else if opcode = OP_LDI then (Status.running, op_ldi instr m1)
  else if opcode = OP_LDR then (Status.running, op_ldr instr m1)
  else if opcode = OP_LEA then (Status.running, { m1 with vm := op_lea instr m1.vm })
  else if opcode = OP_ST then (Status.running, { m1 with vm := op_st instr m1.vm })
  else if opcode = OP_STI then (Status.running, op_sti instr m1)
  else if opcode = OP_STR then (Status.running, { m1 with vm := op_str instr m1.vm })
  else if opcode = OP_TRAP then op_trap char_signed instr m1
  else (Status.aborted, m1)

/-- The loop `while (isRunning)`, cut off after at most `n` passes: the result of the
pass that halted or aborted, or the state reached after `n` passes.  The loop has no exit
for a string trap that ran off the memory array (`Status.fault`): the program prints what
it finds past the array and goes on with the next pass, so the loop goes on here too.  The
trap only reads, so registers, memory and the input side of the terminal are those of the
program; the bytes it printed from outside the array are not in `stdout`. -/
def run (char_signed : Bool) : Nat → Machine → Status × Machine
  | 0, m => (Status.running, m)
  | n + 1, m =>
    match step char_signed m with
    | (Status.running, m1) => run char_signed n m1
    | (Status.fault, m1) => run char_signed n m1
    | r => r

/-! ## Reading values the way the specification does -/

/-- A 16-bit word read as a two's-complement integer. -/
def asInt16 (w : Nat) : Int :=
  if w < 32768 then (w : Int) else (w : Int) - 65536

/-- The classification of a 16-bit value in the words of the specification: ZERO when all
bits are zero, NEGATIVE when the high bit (bit 15) is set, POSITIVE otherwise. -/
def classify (x : Nat) : Nat :=
  if x = 0 then COND_Z else if x.testBit 15 then COND_N else COND_P

/-- Bits `hi..lo` of an instruction word, as a number. -/
def bits (w hi lo : Nat) : Nat := w / 2 ^ lo % 2 ^ (hi + 1 - lo)

/-! ## Image loading and start-up (`readImageFile` and the head of `main`)

A file is the list of its bytes; a path is a C string, the list of its bytes.  The host is
little-endian (the conversion to the host order is a byte swap), so two consecutive bytes
`b0 b1` of a file read into a `uint16_t` give `b0 + 256 * b1`. -/

/-- The call `fread(p, sizeof(uint16_t), n, file)` with `p = memory + p`: stores up to `n`
complete two-byte elements from the stream at `memory[p]`, `memory[p + 1]`, ... and returns
the memory and the number of complete elements read.  A single byte left at the end of the
stream is a partial element: it is stored in the low-address byte of the next word and is
not counted. -/
def fread_words (memory : Nat → Nat) : Nat → Nat → List Nat → (Nat → Nat) × Nat
  | _, 0, _ => (memory, 0)
  | _, _ + 1, [] => (memory, 0)
  | p, _ + 1, [b] => (Function.update memory p (memory p / 256 * 256 + b), 0)
  | p, n + 1, b0 :: b1 :: rest =>
    let r := fread_words (Function.update memory p (b0 + 256 * b1)) (p + 1) n rest
    (r.1, r.2 + 1)

/-- The loop `while (read-- > 0) { *p = swap16(*p); p++; }` of `readImageFile`. -/
def swap_loop (memory : Nat → Nat) : Nat → Nat → (Nat → Nat)
  | _, 0 => memory
  | p, read + 1 => swap_loop (Function.update memory p (swap16 (memory p))) (p + 1) read

/-- `readImageFile`; the second argument is what `fopen(imgPath, "rb")` finds: `none` when
the file cannot be opened, otherwise its bytes.  When the stream has fewer than two bytes
the first `fread` leaves `origin` unset and exhausts the stream, so the second `fread`
stores nothing, whatever `origin` is. -/
def readImageFile (vm : vmState) (file : Option (List Nat)) : Nat × vmState :=
  match file with
  | none => (0, vm)
  | some (b0 :: b1 :: rest) =>
    let origin := swap16 (b0 + 256 * b1)
    let max_read := (MEMORY_MAX - origin) % 65536
    let r := fread_words vm.memory origin max_read rest
    (1, { vm with memory := swap_loop r.1 origin r.2 })
  | some _ => (1, vm)

/-- `initMem`: all memory words and all register slots zero. -/
def initMem : vmState :=
  { memory := fun _ => 0, regstr := fun _ => 0 }

/-- How the part of `main` before the loop ends. -/
inductive Startup where
  /-- The call `exit(status)` after the bytes `out` were printed. -/
  | exited (status : Nat) (out : List Nat)
  /-- The fetch-decode-execute loop is entered with this state. -/
  | started (vm : vmState)

/-- The bytes of the literal `"lc3 image-file ...\n"`. -/
def usageBytes : List Nat :=
  [108, 99, 51, 32, 105, 109, 97, 103, 101, 45, 102, 105, 108, 101, 32, 46, 46, 46, 10]

/-- The bytes of the text `"failed to load image: "`. -/
def failedBytes : List Nat :=
  [102, 97, 105, 108, 101, 100, 32, 116, 111, 32, 108, 111, 97, 100, 32, 105, 109, 97, 103,
   101, 58, 32]

/-- The loop `for (size_t i = 0; i < argc; i++)` of `main`, from index `i` on: the words
`argv[i]`, `argv[i + 1]`, ... still to visit are the list argument.  The result is the path
that failed to load, or the state after all of them were loaded. -/
def load_loop (fs : List Nat → Option (List Nat)) : List (List Nat) → vmState →
    Except (List Nat) vmState
  | [], vm => Except.ok vm
  | path :: more, vm =>
    if (readImageFile vm (fs path)).1 = 0 then Except.error path
    else load_loop fs more (readImageFile vm (fs path)).2

/-- The part of `main` before the loop: `argv` is the whole argument vector (`argv[0]`, the
name the program was started with, first), `fs` what `fopen` finds under each path.  The
loop starts at index 0, so it visits every element of `argv`. -/
def main_start (fs : List Nat → Option (List Nat)) (argv : List (List Nat)) : Startup :=
  if argv.length < 2 then
    Startup.exited 2 usageBytes
  else
    match load_loop fs argv initMem with
    | Except.error path => Startup.exited 1 (failedBytes ++ path ++ [10])
    | Except.ok vm => Startup.started (setReg (setReg vm R_CD COND_Z) R_PC 0x3000)

/-- The big-endian wire encoding of a list of 16-bit words. -/
def wireBytes : List Nat → List Nat
  | [] => []
  | w :: ws => w / 256 :: w % 256 :: wireBytes ws

/-- Writing the words `ws` at consecutive addresses from `p` on; used to describe what a
load leaves in memory. -/
def store_words (memory : Nat → Nat) : Nat → List Nat → (Nat → Nat)
  | _, [] => memory
  | p, w :: ws => store_words (Function.update memory p w) (p + 1) ws

/-! ## What the string traps are to print, in the words of the specification -/

/-- One character per word: the low 8 bits of the `k` words from address `c` on, in
increasing address order. -/
def putsOutput (memory : Nat → Nat) : Nat → Nat → List Nat
  | _, 0 => []
  | c, k + 1 => memory c % 256 :: putsOutput memory (c + 1) k

/-- The characters packed in one word: the low byte, then the high byte if it is not
zero. -/
def packedBytes (w : Nat) : List Nat :=
  if w / 256 = 0 then [w % 256] else [w % 256, w / 256]

/-- Two packed characters per word, for the `k` words from address `c` on, in increasing
address order. -/
def putspOutput (memory : Nat → Nat) : Nat → Nat → List Nat
  | _, 0 => []
  | c, k + 1 => packedBytes (memory c) ++ putspOutput memory (c + 1) k

/-! ## Concrete machines used to exercise the theorems -/

/-- A terminal with nothing typed and nothing written. -/
def quietTty : Terminal := { ready := [], stdin := [], stdout := [] }

/-- `ADD R1, R1, #-2` at 0x3000 with R1 = 3. -/
def addDemo : Machine :=
  { vm := { memory := fun a => if a = 0x3000 then 0x127E else 0,
            regstr := fun r => if r = R_PC then 0x3000 else if r = R_R1 then 3
                        else if r = R_CD then COND_Z else 0 },
    tty := quietTty }

/-- `ADD R1, R1, #0` at 0x3000 with R1 = 0 and CondFlag = POSITIVE. -/
def addZeroDemo : Machine :=
  { vm := { memory := fun a => if a = 0x3000 then 0x1260 else 0,
            regstr := fun r => if r = R_PC then 0x3000 else if r = R_CD then COND_P else 0 },
    tty := quietTty }

/-- `LDI R2, #0` at 0x2FFF, so that the computed address is 0x3000; memory[0x3000] = 0x3002
and memory[0x3002] = 0x1234. -/
def ldiDemo : Machine :=
  { vm := { memory := fun a => if a = 0x2FFF then 0xA400 else if a = 0x3000 then 0x3002
                        else if a = 0x3002 then 0x1234 else 0,
            regstr := fun r => if r = R_PC then 0x2FFF else if r = R_CD then COND_Z else 0 },
    tty := quietTty }

/-- `ST R0, #1` at 0xFDFE followed by `LD R1, #0` at 0xFDFF: both compute the address
0xFE00 (the keyboard status address); R0 holds 0x1234. -/
def stLdStatusDemo : Machine :=
  { vm := { memory := fun a => if a = 0xFDFE then 0x3001 else if a = 0xFDFF then 0x2200 else 0,
            regstr := fun r => if r = R_PC then 0xFDFE else if r = R_R0 then 0x1234
                        else if r = R_CD then COND_Z else 0 },
    tty := quietTty }

/-- `ST R0, #1` at 0x3000 followed by `LD R1, #0` at 0x3001: both compute the address
0x3002; R0 holds 0x1234. -/
def stLdDemo : Machine :=
  { vm := { memory := fun a => if a = 0x3000 then 0x3001 else if a = 0x3001 then 0x2200 else 0,
            regstr := fun r => if r = R_PC then 0x3000 else if r = R_R0 then 0x1234
                        else if r = R_CD then COND_Z else 0 },
    tty := quietTty }

/-- `BRz #5` at 0x3000 with CondFlag = ZERO. -/
def brDemo : Machine :=
  { vm := { memory := fun a => if a = 0x3000 then 0x0405 else 0,
            regstr := fun r => if r = R_PC then 0x3000 else if r = R_CD then COND_Z else 0 },
    tty := quietTty }

/-- `JSRR R7` at 0x3000 with R7 = 0x4000. -/
def jsrrDemo : Machine :=
  { vm := { memory := fun a => if a = 0x3000 then 0x41C0 else 0,
            regstr := fun r => if r = R_PC then 0x3000 else if r = R_R7 then 0x4000
                        else if r = R_CD then COND_Z else 0 },
    tty := quietTty }

/-- A machine whose keyboard has the characters `A` and `B` waiting and answers the next
poll with yes; memory[0xFE02] holds 7 and memory[0x4000] holds 9. -/
def kbdDemo : Machine :=
  { vm := { memory := fun a => if a = 0xFE02 then 7 else if a = 0x4000 then 9 else 0,
            regstr := fun r => if r = R_PC then 0x3000 else if r = R_CD then COND_Z else 0 },
    tty := { ready := [true], stdin := [65, 66], stdout := [] } }

/-- The word 0xFA25 at 0x3000: opcode 15, low byte 0x25 (HALT), bits 11..8 not zero; every
other memory word holds the ADD instruction 0x1021. -/
def haltDemo : Machine :=
  { vm := { memory := fun a => if a = 0x3000 then 0xFA25 else 0x1021,
            regstr := fun r => if r = R_PC then 0x3000 else if r = R_CD then COND_Z else 0 },
    tty := quietTty }

/-- The word 0x8ABC at 0x3000: opcode 8 (RTI) with arbitrary low bits. -/
def rtiDemo : Machine :=
  { vm := { memory := fun a => if a = 0x3000 then 0x8ABC else 0,
            regstr := fun r => if r = R_PC then 0x3000 else if r = R_CD then COND_Z else 0 },
    tty := quietTty }

/-- The path `./lc3`, the name the program is started with (`argv[0]`). -/
def lc3Path : List Nat := [46, 47, 108, 99, 51]

/-- The path `prog.obj`. -/
def progPath : List Nat := [112, 114, 111, 103, 46, 111, 98, 106]

/-- The image stream `[0x3000, 0xABCD]`. -/
def progImage : List Nat := [0x30, 0x00, 0xAB, 0xCD]

/-- A directory holding the program file `./lc3` (its first eight bytes, the head of an ELF
executable, stand for the whole file) and the image `prog.obj`. -/
def demoFs (path : List Nat) : Option (List Nat) :=
  if path = lc3Path then some [0x7F, 0x45, 0x4C, 0x46, 0x02, 0x01, 0x01, 0x00]
  else if path = progPath then some progImage
  else none

/-- A directory holding only the image `prog.obj` (the program was found elsewhere, through
the search path, and started under the name `./lc3`). -/
def imageOnlyFs (path : List Nat) : Option (List Nat) :=
  if path = progPath then some progImage else none

/-- The memory `main` hands to the loop, when it gets that far. -/
def Startup.memory? : Startup → Option (Nat → Nat)
  | Startup.started vm => some vm.memory
  | Startup.exited _ _ => none

/-- The exit status, when `main` exits before the loop. -/
def Startup.status? : Startup → Option Nat
  | Startup.started _ => none
  | Startup.exited status _ => some status

/-- PC = 0xFE00, where memory holds `ADD R0, R0, #1` (0x1021); the keyboard has the
character `A` waiting and answers the next poll with yes. -/
def fetchStatusDemo : Machine :=
  { vm := { memory := fun a => if a = 0xFE00 then 0x1021 else 0,
            regstr := fun r => if r = R_PC then 0xFE00 else if r = R_CD then COND_Z else 0 },
    tty := { ready := [true], stdin := [65], stdout := [] } }

/-- The word 0xF0FF at 0x3000: opcode 15 with the undefined vector 0xFF; two keys are
waiting and one byte was written before. -/
def undefinedTrapDemo : Machine :=
  { vm := { memory := fun a => if a = 0x3000 then 0xF0FF else 0,
            regstr := fun r => if r = R_PC then 0x3000 else if r = R_R7 then 0x1111
                        else if r = R_CD then COND_N else 0 },
    tty := { ready := [true, true], stdin := [65, 66], stdout := [33] } }

/-- `AND R2, R1, #-1` (immediate field 0b11111) at 0x3000 with R1 = 0xBEEF and R2 = 5. -/
def andDemo : Machine :=
  { vm := { memory := fun a => if a = 0x3000 then 0x547F else 0,
            regstr := fun r => if r = R_PC then 0x3000 else if r = R_R1 then 0xBEEF
                        else if r = R_R2 then 5 else if r = R_CD then COND_Z else 0 },
    tty := quietTty }

/-- `STI R3, #1` at 0x3000 with R3 = 0x5678; the pointer word memory[0x3002] holds 0x4000. -/
def stiDemo : Machine :=
  { vm := { memory := fun a => if a = 0x3000 then 0xB601 else if a = 0x3002 then 0x4000 else 0,
            regstr := fun r => if r = R_PC then 0x3000 else if r = R_R3 then 0x5678
                        else if r = R_CD then COND_Z else 0 },
    tty := quietTty }

/-- The PUTS trap (0xF022) at 0x3000 with R0 = 0x4000; the words from 0x4000 on are 0x0048,
0x0169, 0 (the second has a bit set above its low byte). -/
def putsDemo : Machine :=
  { vm := { memory := fun a => if a = 0x3000 then 0xF022 else if a = 0x4000 then 0x0048
                        else if a = 0x4001 then 0x0169 else 0,
            regstr := fun r => if r = R_PC then 0x3000 else if r = R_R0 then 0x4000
                        else if r = R_CD then COND_Z else 0 },
    tty := quietTty }

/-- The PUTSP trap (0xF024) at 0x3000 with R0 = 0x4000; the words from 0x4000 on are
0x6548, 0x006C, 0x2100, 0 (the third has a zero low byte). -/
def putspDemo : Machine :=
  { vm := { memory := fun a => if a = 0x3000 then 0xF024 else if a = 0x4000 then 0x6548
                        else if a = 0x4001 then 0x006C else if a = 0x4002 then 0x2100 else 0,
            regstr := fun r => if r = R_PC then 0x3000 else if r = R_R0 then 0x4000
                        else if r = R_CD then COND_Z else 0 },
    tty := quietTty }

/-- `LD R1, #0` at 0xFDFF, which reads the keyboard status address 0xFE00 while the
character `A` is waiting; memory[0x4000] holds 9. -/
def ldStatusDemo : Machine :=
  { vm := { memory := fun a => if a = 0xFDFF then 0x2200 else if a = 0x4000 then 9 else 0,
            regstr := fun r => if r = R_PC then 0xFDFF else if r = R_CD then COND_Z else 0 },
    tty := { ready := [true], stdin := [65], stdout := [] } }

/-- The GETC trap (0xF020) at 0x3000 with the byte 0x80 delivered next; CondFlag is
NEGATIVE and one byte was written before. -/
def getcHighDemo : Machine :=
  { vm := { memory := fun a => if a = 0x3000 then 0xF020 else 0,
            regstr := fun r => if r = R_PC then 0x3000 else if r = R_CD then COND_N else 0 },
    tty := { ready := [], stdin := [0x80, 0x41], stdout := [33] } }

/-- The IN trap (0xF023) at 0x3000 with the byte 0x80 delivered next. -/
def inHighDemo : Machine :=
  { vm := { memory := fun a => if a = 0x3000 then 0xF023 else 0,
            regstr := fun r => if r = R_PC then 0x3000 else if r = R_CD then COND_Z else 0 },
    tty := { ready := [], stdin := [0x80, 0x41], stdout := [] } }

/-- The PUTS trap (0xF022) at 0x3000 with R0 = 0xFFFF and memory[0xFFFF] = 0x0041: no word
from R0 to the top of memory is zero. -/
def putsRunOffDemo : Machine :=
  { vm := { memory := fun a => if a = 0x3000 then 0xF022 else if a = 0xFFFF then 0x0041 else 0,
            regstr := fun r => if r = R_PC then 0x3000 else if r = R_R0 then 0xFFFF
                        else if r = R_CD then COND_Z else 0 },
    tty := quietTty }

/-- The PUTSP trap (0xF024) at 0x3000 with R0 = 0xFFFF and memory[0xFFFF] = 0x4241: no word
from R0 to the top of memory is zero. -/
def putspRunOffDemo : Machine :=
  { vm := { memory := fun a => if a = 0x3000 then 0xF024 else if a = 0xFFFF then 0x4241 else 0,
            regstr := fun r => if r = R_PC then 0x3000 else if r = R_R0 then 0xFFFF
                        else if r = R_CD then COND_Z else 0 },
    tty := quietTty }

/-- The PUTS trap (0xF022) at 0x3000 followed by `ADD R1, R1, #-2` (0x127E) at 0x3001, with
R0 = 0xFFFF, R1 = 0 and memory[0xFFFF] = 0x0041: the trap runs off the memory array and the
loop goes on with the ADD. -/
def runOffThenAddDemo : Machine :=
  { vm := { memory := fun a => if a = 0x3000 then 0xF022 else if a = 0x3001 then 0x127E
                        else if a = 0xFFFF then 0x0041 else 0,
            regstr := fun r => if r = R_PC then 0x3000 else if r = R_R0 then 0xFFFF
                        else if r = R_CD then COND_Z else 0 },
    tty := quietTty }

/-! ## Basic facts about the embedding -/

theorem COND_P_eq : COND_P = 1 := rfl
theorem COND_Z_eq : COND_Z = 2 := rfl
theorem COND_N_eq : COND_N = 4 := rfl
theorem MEMORY_MAX_eq : MEMORY_MAX = 65536 := rfl

theorem and_1 (x : Nat) : x &&& 1 = x % 2 := Nat.and_one_is_mod x
theorem and_7 (x : Nat) : x &&& 7 = x % 8 := Nat.and_pow_two_sub_one_eq_mod x 3
theorem and_0x1F (x : Nat) : x &&& 0x1F = x % 32 := Nat.and_pow_two_sub_one_eq_mod x 5
theorem and_0x3F (x : Nat) : x &&& 0x3F = x % 64 := Nat.and_pow_two_sub_one_eq_mod x 6
theorem and_0xFF (x : Nat) : x &&& 0xFF = x % 256 := Nat.and_pow_two_sub_one_eq_mod x 8
theorem and_0x1FF (x : Nat) : x &&& 0x1FF = x % 512 := Nat.and_pow_two_sub_one_eq_mod x 9
theorem and_0x7FF (x : Nat) : x &&& 0x7FF = x % 2048 := Nat.and_pow_two_sub_one_eq_mod x 11

theorem bits_11_9_lt (w : Nat) : bits w 11 9 < 8 := by
  simp only [bits, Nat.reducePow, Nat.reduceAdd, Nat.reduceSub]; omega

theorem bits_8_6_lt (w : Nat) : bits w 8 6 < 8 := by
  simp only [bits, Nat.reducePow, Nat.reduceAdd, Nat.reduceSub]; omega

theorem bits_2_0_lt (w : Nat) : bits w 2 0 < 8 := by
  simp only [bits, Nat.reducePow, Nat.reduceAdd, Nat.reduceSub]; omega

@[simp] theorem setReg_regstr (vm : vmState) (r v : Nat) :
    (setReg vm r v).regstr = Function.update vm.regstr r v := rfl

@[simp] theorem setReg_memory (vm : vmState) (r v : Nat) :
    (setReg vm r v).memory = vm.memory := rfl

@[simp] theorem mem_write_memory (vm : vmState) (a v : Nat) :
    (mem_write vm a v).memory = Function.update vm.memory a v := rfl

@[simp] theorem mem_write_regstr (vm : vmState) (a v : Nat) :
    (mem_write vm a v).regstr = vm.regstr := rfl

/-! ### `sign_extend` -/

theorem sign_extend_arith (n v : Nat) (hv : v < 2 ^ n) :
    sign_extend v n =
      if v / 2 ^ (n - 1) % 2 ≠ 0 then (2 ^ n * 65535 + v) % 65536 else v := by
  unfold sign_extend
  rw [Nat.and_one_is_mod, Nat.shiftRight_eq_div_pow, Nat.shiftLeft_eq, Nat.lor_comm,
    Nat.mul_comm 65535, ← Nat.mul_add_lt_is_or hv]

theorem sign_extend_value (n v : Nat) (hn1 : 1 ≤ n) (hn2 : n ≤ 15) (hv : v < 2 ^ n) :
    sign_extend v n = if v < 2 ^ (n - 1) then v else v + 65536 - 2 ^ n := by
  rw [sign_extend_arith n v hv]
  interval_cases n <;> simp only [Nat.reducePow, Nat.reduceSub, Nat.reduceMul] at hv ⊢ <;>
    split_ifs <;> omega

/-! ### `update_flags` -/

@[simp] theorem update_flags_memory (vm : vmState) (r : Nat) :
    (update_flags vm r).memory = vm.memory := by
  unfold update_flags; split_ifs <;> rfl

theorem update_flags_regstr_of_ne (vm : vmState) (r i : Nat) (hi : i ≠ R_CD) :
    (update_flags vm r).regstr i = vm.regstr i := by
  unfold update_flags; split_ifs <;> simp [Function.update_noteq hi]

theorem shiftRight15_ne_zero_iff (x : Nat) (hx : x < 65536) :
    x >>> 15 ≠ 0 ↔ x.testBit 15 = true := by
  rw [Nat.shiftRight_eq_div_pow, Nat.testBit_to_div_mod]
  simp only [Nat.reducePow, decide_eq_true_eq]
  omega

theorem update_flags_cd (vm : vmState) (r : Nat) (hx : vm.regstr r < 65536) :
    (update_flags vm r).regstr R_CD = classify (vm.regstr r) := by
  unfold update_flags classify
  by_cases h0 : vm.regstr r = 0
  · simp [h0]
  · have := shiftRight15_ne_zero_iff _ hx
    by_cases h1 : (vm.regstr r).testBit 15 = true
    · simp [h0, h1, this.mpr h1]
    · have h2 : ¬ (vm.regstr r >>> 15 ≠ 0) := fun h => h1 (this.mp h)
      simp [h0, h1, h2]

/-! ### Fetch -/

theorem afterFetch_regstr_of_ne (m : Machine) (i : Nat) (hi : i ≠ R_PC) :
    (afterFetch m).vm.regstr i = m.vm.regstr i := by
  simp [afterFetch, Function.update_noteq hi]

@[simp] theorem afterFetch_pc (m : Machine) :
    (afterFetch m).vm.regstr R_PC = (m.vm.regstr R_PC + 1) % 65536 := by
  simp [afterFetch]

@[simp] theorem afterFetch_memory (m : Machine) : (afterFetch m).vm.memory = m.vm.memory := rfl

@[simp] theorem afterFetch_tty (m : Machine) : (afterFetch m).tty = m.tty := rfl

/-! ### `case OP_ADD` -/

theorem step_add (cs : Bool) (m : Machine) (h : fetch m >>> 12 = OP_ADD) :
    step cs m =
      (Status.running, { afterFetch m with vm := op_add (fetch m) (afterFetch m).vm }) := by
  simp [step, h]

theorem op_add_dr (instr : Nat) (vm : vmState) :
    (op_add instr vm).regstr (bits instr 11 9) =
      if bits instr 5 5 = 1 then
        (vm.regstr (bits instr 8 6) + sign_extend (bits instr 4 0) 5) % 65536
      else (vm.regstr (bits instr 8 6) + vm.regstr (bits instr 2 0)) % 65536 := by
  have hdr : instr / 512 % 8 ≠ R_CD := by simp only [R_CD]; omega
  have h5 : (instr / 32 % 2 = 1) ↔ ¬ (instr / 32 % 2 = 0) := by omega
  simp only [op_add, bits, and_1, and_7, and_0x1F, Nat.shiftRight_eq_div_pow, Nat.reducePow,
    Nat.reduceAdd, Nat.reduceSub, Nat.div_one, ne_eq, h5]
  split_ifs <;> rw [update_flags_regstr_of_ne _ _ _ hdr] <;> simp

theorem op_add_cd (instr : Nat) (vm : vmState) :
    (op_add instr vm).regstr R_CD = classify ((op_add instr vm).regstr (bits instr 11 9)) := by
  have hdr : instr / 512 % 8 ≠ R_CD := by simp only [R_CD]; omega
  simp only [op_add, bits, and_1, and_7, and_0x1F, Nat.shiftRight_eq_div_pow, Nat.reducePow,
    Nat.reduceAdd, Nat.reduceSub, Nat.div_one, ne_eq]
  split_ifs <;>
  · rw [update_flags_cd, update_flags_regstr_of_ne _ _ _ hdr]
    simp only [setReg_regstr, Function.update_same]
    exact Nat.mod_lt _ (by decide)

/-! ### Decoding: the shifts and masks of the handlers select bit ranges -/

theorem dec_11_9 (w : Nat) : (w >>> 9) &&& 7 = bits w 11 9 := by
  simp [bits, and_7, Nat.shiftRight_eq_div_pow]

theorem dec_8_6 (w : Nat) : (w >>> 6) &&& 7 = bits w 8 6 := by
  simp [bits, and_7, Nat.shiftRight_eq_div_pow]

theorem dec_2_0 (w : Nat) : w &&& 7 = bits w 2 0 := by
  simp [bits, and_7]

theorem dec_5 (w : Nat) : (w >>> 5) &&& 1 = bits w 5 5 := by
  simp [bits, and_1, Nat.shiftRight_eq_div_pow]

theorem dec_11 (w : Nat) : (w >>> 11) &&& 1 = bits w 11 11 := by
  simp [bits, and_1, Nat.shiftRight_eq_div_pow]

theorem dec_4_0 (w : Nat) : w &&& 31 = bits w 4 0 := by
  simp [bits, and_0x1F]

theorem dec_5_0 (w : Nat) : w &&& 63 = bits w 5 0 := by
  simp [bits, and_0x3F]

theorem dec_7_0 (w : Nat) : w &&& 255 = bits w 7 0 := by
  simp [bits, and_0xFF]

theorem dec_8_0 (w : Nat) : w &&& 511 = bits w 8 0 := by
  simp [bits, and_0x1FF]

theorem dec_10_0 (w : Nat) : w &&& 2047 = bits w 10 0 := by
  simp [bits, and_0x7FF]

theorem bits_11_9_ne_cd (w : Nat) : bits w 11 9 ≠ R_CD :=
  Nat.ne_of_lt (Nat.lt_trans (bits_11_9_lt w) (by decide))

theorem bits_11_9_ne_pc (w : Nat) : bits w 11 9 ≠ R_PC := Nat.ne_of_lt (bits_11_9_lt w)

theorem bits_8_6_ne_pc (w : Nat) : bits w 8 6 ≠ R_PC := Nat.ne_of_lt (bits_8_6_lt w)

/-! ### Register writes followed by `update_flags` -/

theorem update_flags_setReg_same (vm : vmState) (r v : Nat) (hr : r ≠ R_CD) :
    (update_flags (setReg vm r v) r).regstr r = v := by
  rw [update_flags_regstr_of_ne _ _ _ hr]; simp

theorem update_flags_setReg_cd (vm : vmState) (r v : Nat) (hv : v < 65536) :
    (update_flags (setReg vm r v) r).regstr R_CD = classify v := by
  rw [update_flags_cd] <;> simp [hv]

/-! ### `mem_read` away from the keyboard status address -/

theorem mem_read_of_ne (m : Machine) (address : Nat) (h : address ≠ MR_KBSR) :
    mem_read m address = (m.vm.memory address, m) := by
  simp [mem_read, h]

/-! ### `case OP_LD`, `case OP_LDI`, `case OP_ST` -/

theorem step_ld (cs : Bool) (m : Machine) (h : fetch m >>> 12 = OP_LD) :
    step cs m = (Status.running, op_ld (fetch m) (afterFetch m)) := by
  simp [step, h]

theorem step_ldi (cs : Bool) (m : Machine) (h : fetch m >>> 12 = OP_LDI) :
    step cs m = (Status.running, op_ldi (fetch m) (afterFetch m)) := by
  simp [step, h]

theorem step_st (cs : Bool) (m : Machine) (h : fetch m >>> 12 = OP_ST) :
    step cs m =
      (Status.running, { afterFetch m with vm := op_st (fetch m) (afterFetch m).vm }) := by
  simp [step, h]

theorem op_ld_of_ne (instr : Nat) (m : Machine)
    (h : (m.vm.regstr R_PC + sign_extend (bits instr 8 0) 9) % 65536 ≠ MR_KBSR) :
    op_ld instr m =
      { vm := update_flags
          (setReg m.vm (bits instr 11 9)
            (m.vm.memory ((m.vm.regstr R_PC + sign_extend (bits instr 8 0) 9) % 65536)))
          (bits instr 11 9),
        tty := m.tty } := by
  simp only [op_ld, dec_11_9, dec_8_0, mem_read_of_ne _ _ h]

theorem op_ldi_of_ne (instr : Nat) (m : Machine)
    (h1 : (m.vm.regstr R_PC + sign_extend (bits instr 8 0) 9) % 65536 ≠ MR_KBSR)
    (h2 : m.vm.memory ((m.vm.regstr R_PC + sign_extend (bits instr 8 0) 9) % 65536) ≠ MR_KBSR) :
    op_ldi instr m =
      { vm := update_flags
          (setReg m.vm (bits instr 11 9)
            (m.vm.memory (m.vm.memory
              ((m.vm.regstr R_PC + sign_extend (bits instr 8 0) 9) % 65536))))
          (bits instr 11 9),
        tty := m.tty } := by
  simp only [op_ldi, dec_11_9, dec_8_0, mem_read_of_ne _ _ h1, mem_read_of_ne _ _ h2]

theorem op_st_eq (instr : Nat) (vm : vmState) :
    op_st instr vm =
      mem_write vm ((vm.regstr R_PC + sign_extend (bits instr 8 0) 9) % 65536)
        (vm.regstr (bits instr 11 9)) := by
  simp only [op_st, dec_11_9, dec_8_0]

/-! ### `case OP_BR`, `case OP_JSR` -/

theorem step_br (cs : Bool) (m : Machine) (h : fetch m >>> 12 = OP_BR) :
    step cs m =
      (Status.running, { afterFetch m with vm := op_br (fetch m) (afterFetch m).vm }) := by
  simp [step, h]

theorem step_jsr (cs : Bool) (m : Machine) (h : fetch m >>> 12 = OP_JSR) :
    step cs m =
      (Status.running, { afterFetch m with vm := op_jsr (fetch m) (afterFetch m).vm }) := by
  simp [step, h]

theorem op_br_eq (instr : Nat) (vm : vmState) :
    op_br instr vm =
      if bits instr 11 9 &&& vm.regstr R_CD ≠ 0 then
        setReg vm R_PC ((vm.regstr R_PC + sign_extend (bits instr 8 0) 9) % 65536)
      else vm := by
  simp only [op_br, dec_11_9, dec_8_0]

theorem bits_11_11_cases (w : Nat) : bits w 11 11 = 0 ∨ bits w 11 11 = 1 := by
  simp only [bits, Nat.reducePow, Nat.reduceAdd, Nat.reduceSub]; omega

theorem op_jsr_eq (instr : Nat) (vm : vmState) :
    op_jsr instr vm =
      if bits instr 11 11 = 1 then
        setReg (setReg vm R_R7 (vm.regstr R_PC)) R_PC
          ((vm.regstr R_PC + sign_extend (bits instr 10 0) 11) % 65536)
      else
        setReg (setReg vm R_R7 (vm.regstr R_PC)) R_PC
          (Function.update vm.regstr R_R7 (vm.regstr R_PC) (bits instr 8 6)) := by
  have h11 : bits instr 11 11 ≠ 0 ↔ bits instr 11 11 = 1 := by
    rcases bits_11_11_cases instr with h | h <;> simp [h]
  simp only [op_jsr, dec_11, dec_8_6, dec_10_0, h11, setReg_regstr,
    Function.update_noteq (show R_PC ≠ R_R7 by decide)]

/-! ### The host calls -/

theorem checkKeys_stdin (t : Terminal) : (checkKeys t).2.stdin = t.stdin := by
  unfold checkKeys; split <;> rfl

theorem checkKeys_stdout (t : Terminal) : (checkKeys t).2.stdout = t.stdout := by
  unfold checkKeys; split <;> rfl

theorem toUint16_natCast (c : Nat) (hc : c < 65536) : toUint16 (c : Int) = c := by
  unfold toUint16; omega

theorem mem_read_regstr (m : Machine) (address : Nat) :
    (mem_read m address).2.vm.regstr = m.vm.regstr := by
  unfold mem_read; split_ifs <;> rfl

/-! ### The opcode `switch`: one equation per `case` -/

theorem step_trap (cs : Bool) (m : Machine) (h : fetch m >>> 12 = OP_TRAP) :
    step cs m = op_trap cs (fetch m) (afterFetch m) := by
  simp [step, h]

theorem step_and (cs : Bool) (m : Machine) (h : fetch m >>> 12 = OP_AND) :
    step cs m = (Status.running, { afterFetch m with vm := op_and (fetch m) (afterFetch m).vm }) := by
  simp [step, h]

theorem step_not (cs : Bool) (m : Machine) (h : fetch m >>> 12 = OP_NOT) :
    step cs m = (Status.running, { afterFetch m with vm := op_not (fetch m) (afterFetch m).vm }) := by
  simp [step, h]

theorem step_jmp (cs : Bool) (m : Machine) (h : fetch m >>> 12 = OP_JMP) :
    step cs m = (Status.running, { afterFetch m with vm := op_jmp (fetch m) (afterFetch m).vm }) := by
  simp [step, h]

theorem step_ldr (cs : Bool) (m : Machine) (h : fetch m >>> 12 = OP_LDR) :
    step cs m = (Status.running, op_ldr (fetch m) (afterFetch m)) := by
  simp [step, h]

theorem step_lea (cs : Bool) (m : Machine) (h : fetch m >>> 12 = OP_LEA) :
    step cs m = (Status.running, { afterFetch m with vm := op_lea (fetch m) (afterFetch m).vm }) := by
  simp [step, h]

theorem step_sti (cs : Bool) (m : Machine) (h : fetch m >>> 12 = OP_STI) :
    step cs m = (Status.running, op_sti (fetch m) (afterFetch m)) := by
  simp [step, h]

theorem step_str (cs : Bool) (m : Machine) (h : fetch m >>> 12 = OP_STR) :
    step cs m = (Status.running, { afterFetch m with vm := op_str (fetch m) (afterFetch m).vm }) := by
  simp [step, h]

theorem step_abort (cs : Bool) (m : Machine)
    (h : fetch m >>> 12 = OP_RTI ∨ fetch m >>> 12 = OP_RES ∨ 16 ≤ fetch m >>> 12) :
    step cs m = (Status.aborted, afterFetch m) := by
  rcases h with h | h | h
  · simp [step, h]
  · simp [step, h]
  · have h0 : fetch m >>> 12 ≠ 0 := by omega
    have h1 : fetch m >>> 12 ≠ 1 := by omega
    have h2 : fetch m >>> 12 ≠ 2 := by omega
    have h3 : fetch m >>> 12 ≠ 3 := by omega
    have h4 : fetch m >>> 12 ≠ 4 := by omega
    have h5 : fetch m >>> 12 ≠ 5 := by omega
    have h6 : fetch m >>> 12 ≠ 6 := by omega
    have h7 : fetch m >>> 12 ≠ 7 := by omega
    have h9 : fetch m >>> 12 ≠ 9 := by omega
    have h10 : fetch m >>> 12 ≠ 10 := by omega
    have h11 : fetch m >>> 12 ≠ 11 := by omega
    have h12 : fetch m >>> 12 ≠ 12 := by omega
    have h14 : fetch m >>> 12 ≠ 14 := by omega
    have h15 : fetch m >>> 12 ≠ 15 := by omega
    simp [step, h0, h1, h2, h3, h4, h5, h6, h7, h9, h10, h11, h12, h14, h15]

/-- The status with which `step` ends, opcode by opcode. -/
theorem step_status (cs : Bool) (m : Machine) :
    (step cs m).1 =
      if fetch m >>> 12 = OP_TRAP then (op_trap cs (fetch m) (afterFetch m)).1
      else if fetch m >>> 12 = OP_RTI ∨ fetch m >>> 12 = OP_RES ∨ 16 ≤ fetch m >>> 12 then
        Status.aborted
      else Status.running := by
  have hc : fetch m >>> 12 = 0 ∨ fetch m >>> 12 = 1 ∨ fetch m >>> 12 = 2 ∨
      fetch m >>> 12 = 3 ∨ fetch m >>> 12 = 4 ∨ fetch m >>> 12 = 5 ∨ fetch m >>> 12 = 6 ∨
      fetch m >>> 12 = 7 ∨ fetch m >>> 12 = 9 ∨ fetch m >>> 12 = 10 ∨ fetch m >>> 12 = 11 ∨
      fetch m >>> 12 = 12 ∨ fetch m >>> 12 = 14 ∨ fetch m >>> 12 = 15 ∨
      (fetch m >>> 12 = 8 ∨ fetch m >>> 12 = 13 ∨ 16 ≤ fetch m >>> 12) := by omega
  rcases hc with h | h | h | h | h | h | h | h | h | h | h | h | h | h | h
  · rw [step_br cs m h]; simp [h]
  · rw [step_add cs m h]; simp [h]
  · rw [step_ld cs m h]; simp [h]
  · rw [step_st cs m h]; simp [h]
  · rw [step_jsr cs m h]; simp [h]
  · rw [step_and cs m h]; simp [h]
  · rw [step_ldr cs m h]; simp [h]
  · rw [step_str cs m h]; simp [h]
  · rw [step_not cs m h]; simp [h]
  · rw [step_ldi cs m h]; simp [h]
  · rw [step_sti cs m h]; simp [h]
  · rw [step_jmp cs m h]; simp [h]
  · rw [step_lea cs m h]; simp [h]
  · rw [step_trap cs m h]; simp [h]
  · rw [step_abort cs m h]
    have h15 : fetch m >>> 12 ≠ 15 := by omega
    simp [h15, h]

theorem op_trap_status_aux (cs : Bool) (instr : Nat) (m : Machine) (st : Status)
    (h : (op_trap cs instr m).1 = st) :
    st = Status.running ∨
    (st = Status.fault ∧ (bits instr 7 0 = TRAP_PUTS ∨ bits instr 7 0 = TRAP_PUTSP)) ∨
    (st = Status.halted ∧ bits instr 7 0 = TRAP_HALT) := by
  unfold op_trap at h
  simp only [dec_7_0] at h
  by_cases h1 : bits instr 7 0 = TRAP_GETC
  · rw [if_pos h1] at h; exact Or.inl h.symm
  rw [if_neg h1] at h
  by_cases h2 : bits instr 7 0 = TRAP_OUT
  · rw [if_pos h2] at h; exact Or.inl h.symm
  rw [if_neg h2] at h
  by_cases h3 : bits instr 7 0 = TRAP_PUTS
  · rw [if_pos h3] at h; split at h
    · exact Or.inl h.symm
    · exact Or.inr (Or.inl ⟨h.symm, Or.inl h3⟩)
  rw [if_neg h3] at h
  by_cases h4 : bits instr 7 0 = TRAP_IN
  · rw [if_pos h4] at h; exact Or.inl h.symm
  rw [if_neg h4] at h
  by_cases h5 : bits instr 7 0 = TRAP_PUTSP
  · rw [if_pos h5] at h; split at h
    · exact Or.inl h.symm
    · exact Or.inr (Or.inl ⟨h.symm, Or.inr h5⟩)
  rw [if_neg h5] at h
  by_cases h6 : bits instr 7 0 = TRAP_HALT
  · rw [if_pos h6] at h; exact Or.inr (Or.inr ⟨h.symm, h6⟩)
  rw [if_neg h6] at h; exact Or.inl h.symm

/-- The status with which `case OP_TRAP` ends, vector by vector. -/
theorem op_trap_status (cs : Bool) (instr : Nat) (m : Machine) :
    (op_trap cs instr m).1 = Status.running ∨
    ((op_trap cs instr m).1 = Status.fault ∧
      (bits instr 7 0 = TRAP_PUTS ∨ bits instr 7 0 = TRAP_PUTSP)) ∨
    ((op_trap cs instr m).1 = Status.halted ∧ bits instr 7 0 = TRAP_HALT) :=
  op_trap_status_aux cs instr m _ rfl

theorem op_trap_halt (cs : Bool) (instr : Nat) (m : Machine) (h : bits instr 7 0 = TRAP_HALT) :
    op_trap cs instr m =
      (Status.halted, { vm := setReg m.vm R_R7 (m.vm.regstr R_PC),
                        tty := writeBytes haltBytes m.tty }) := by
  unfold op_trap
  simp only [dec_7_0, h]
  rfl

/-! ### Image loading -/

theorem swap16_native (b0 b1 : Nat) (h0 : b0 < 256) (h1 : b1 < 256) :
    swap16 (b0 + 256 * b1) = 256 * b0 + b1 := by
  unfold swap16
  have hor : (b0 + 256 * b1) <<< 8 ||| (b0 + 256 * b1) >>> 8
      = 2 ^ 8 * (b0 + 256 * b1) + b1 := by
    have e1 : (b0 + 256 * b1) >>> 8 = b1 := by
      rw [Nat.shiftRight_eq_div_pow]; simp only [Nat.reducePow]; omega
    rw [e1, Nat.shiftLeft_eq, Nat.mul_comm _ (2 ^ 8)]
    exact (Nat.mul_add_lt_is_or (by simpa using h1) _).symm
  rw [hor]; simp only [Nat.reducePow]; omega

theorem swap16_wire (w : Nat) (hw : w < 65536) : swap16 (w / 256 + 256 * (w % 256)) = w := by
  rw [swap16_native _ _ (by omega) (by omega)]; omega

theorem store_words_apply_lt (ws : List Nat) :
    ∀ (memory : Nat → Nat) (p a : Nat), a < p → store_words memory p ws a = memory a := by
  induction ws with
  | nil => intro memory p a _; rfl
  | cons w ws ih =>
    intro memory p a h
    rw [store_words, ih _ _ _ (by omega), Function.update_noteq (by omega)]

theorem store_words_apply_ge (ws : List Nat) :
    ∀ (memory : Nat → Nat) (p a : Nat), p + ws.length ≤ a →
      store_words memory p ws a = memory a := by
  induction ws with
  | nil => intro memory p a _; rfl
  | cons w ws ih =>
    intro memory p a h
    simp only [List.length_cons] at h
    rw [store_words, ih _ _ _ (by omega), Function.update_noteq (by omega)]

theorem store_words_get (ws : List Nat) :
    ∀ (memory : Nat → Nat) (p i : Nat) (h : i < ws.length),
      store_words memory p ws (p + i) = ws[i] := by
  induction ws with
  | nil => intro memory p i h; simp at h
  | cons w ws ih =>
    intro memory p i h
    cases i with
    | zero =>
      rw [store_words, Nat.add_zero, store_words_apply_lt _ _ _ _ (by omega)]
      simp
    | succ i =>
      simp only [List.length_cons] at h
      rw [store_words, show p + (i + 1) = p + 1 + i by omega, ih _ _ _ (by omega)]
      simp

theorem store_words_update_lt (ws : List Nat) :
    ∀ (memory : Nat → Nat) (p a v : Nat), a < p →
      Function.update (store_words memory p ws) a v =
        store_words (Function.update memory a v) p ws := by
  induction ws with
  | nil => intro memory p a v _; rfl
  | cons w ws ih =>
    intro memory p a v h
    rw [store_words, store_words, ih _ _ _ _ (by omega),
      Function.update_comm (show a ≠ p by omega)]

/-- What `fread` stores: the complete elements, in host order, at most `n` of them. -/
theorem fread_words_wire (ws : List Nat) :
    ∀ (memory : Nat → Nat) (p n : Nat),
      fread_words memory p n (wireBytes ws) =
        (store_words memory p ((ws.take n).map (fun w => w / 256 + 256 * (w % 256))),
          (ws.take n).length) := by
  induction ws with
  | nil =>
    intro memory p n
    cases n <;> simp [wireBytes, fread_words, store_words]
  | cons w ws ih =>
    intro memory p n
    cases n with
    | zero => simp [fread_words, store_words]
    | succ n =>
      simp only [wireBytes, fread_words, ih, List.take_succ_cons, List.map_cons, store_words,
        List.length_cons]

/-- The swap loop turns the stored host-order elements into the wire words. -/
theorem swap_loop_store (xs : List Nat) :
    ∀ (memory : Nat → Nat) (p : Nat),
      swap_loop (store_words memory p xs) p xs.length =
        store_words memory p (xs.map swap16) := by
  induction xs with
  | nil => intro memory p; rfl
  | cons x xs ih =>
    intro memory p
    simp only [List.length_cons, swap_loop, List.map_cons, store_words]
    rw [store_words_apply_lt _ _ _ _ (by omega), Function.update_same,
      store_words_update_lt _ _ _ _ _ (by omega), Function.update_idem, ih]

theorem map_swap16_wire (ws : List Nat) (hws : ∀ w ∈ ws, w < 65536) :
    (ws.map (fun w => w / 256 + 256 * (w % 256))).map swap16 = ws := by
  induction ws with
  | nil => rfl
  | cons w ws ih =>
    simp only [List.map_cons]
    rw [swap16_wire w (hws w (by simp)), ih (fun x hx => hws x (by simp [hx]))]

/-- `readImageFile` on a well-formed stream with origin `o`: the first
`(MEMORY_MAX - o) % 65536` words are stored from `o` on. -/
theorem readImageFile_wire (vm : vmState) (o : Nat) (ws : List Nat) (ho : o < 65536)
    (hws : ∀ w ∈ ws, w < 65536) :
    readImageFile vm (some (wireBytes (o :: ws))) =
      (1, { vm with memory :=
              store_words vm.memory o (ws.take ((MEMORY_MAX - o) % 65536)) }) := by
  have hlen : ∀ n, ((ws.take n).map (fun w => w / 256 + 256 * (w % 256))).length =
      (ws.take n).length := fun n => List.length_map _ _
  have htake : ∀ n, ∀ w ∈ ws.take n, w < 65536 := fun n w hw => hws w (List.mem_of_mem_take hw)
  simp only [wireBytes, readImageFile, swap16_wire o ho, fread_words_wire]
  rw [← hlen, swap_loop_store, map_swap16_wire _ (htake _)]

/-! ### `case OP_TRAP`: one equation per vector -/

theorem op_trap_getc (cs : Bool) (instr : Nat) (m : Machine) (h : bits instr 7 0 = TRAP_GETC) :
    op_trap cs instr m =
      (Status.running,
        { vm := update_flags
            (setReg (setReg m.vm R_R7 (m.vm.regstr R_PC)) R_R0 (toUint16 (getchar m.tty).1))
            R_R0,
          tty := (getchar m.tty).2 }) := by
  unfold op_trap
  simp only [dec_7_0, h]
  rfl

theorem op_trap_out (cs : Bool) (instr : Nat) (m : Machine) (h : bits instr 7 0 = TRAP_OUT) :
    op_trap cs instr m =
      (Status.running,
        { vm := setReg m.vm R_R7 (m.vm.regstr R_PC),
          tty := putc (toChar cs ((setReg m.vm R_R7 (m.vm.regstr R_PC)).regstr R_R0)) m.tty }) := by
  unfold op_trap
  simp only [dec_7_0, h]
  rfl

theorem op_trap_puts (cs : Bool) (instr : Nat) (m : Machine) (h : bits instr 7 0 = TRAP_PUTS) :
    op_trap cs instr m =
      match puts_loop cs m.vm.memory (m.vm.regstr R_R0) (MEMORY_MAX - m.vm.regstr R_R0)
          m.tty with
      | some t => (Status.running, { vm := setReg m.vm R_R7 (m.vm.regstr R_PC), tty := t })
      | none => (Status.fault, { vm := setReg m.vm R_R7 (m.vm.regstr R_PC), tty := m.tty }) := by
  unfold op_trap
  simp only [dec_7_0, h]
  rfl

theorem op_trap_in (cs : Bool) (instr : Nat) (m : Machine) (h : bits instr 7 0 = TRAP_IN) :
    op_trap cs instr m =
      (Status.running,
        { vm := update_flags
            (setReg (setReg m.vm R_R7 (m.vm.regstr R_PC)) R_R0
              (toUint16 (toChar cs (getchar (writeBytes promptBytes m.tty)).1)))
            R_R0,
          tty := putc (toChar cs (getchar (writeBytes promptBytes m.tty)).1)
            (getchar (writeBytes promptBytes m.tty)).2 }) := by
  unfold op_trap
  simp only [dec_7_0, h]
  rfl

theorem op_trap_putsp (cs : Bool) (instr : Nat) (m : Machine) (h : bits instr 7 0 = TRAP_PUTSP) :
    op_trap cs instr m =
      match putsp_loop cs m.vm.memory (m.vm.regstr R_R0) (MEMORY_MAX - m.vm.regstr R_R0)
          m.tty with
      | some t => (Status.running, { vm := setReg m.vm R_R7 (m.vm.regstr R_PC), tty := t })
      | none => (Status.fault, { vm := setReg m.vm R_R7 (m.vm.regstr R_PC), tty := m.tty }) := by
  unfold op_trap
  simp only [dec_7_0, h]
  rfl

theorem op_trap_other (cs : Bool) (instr : Nat) (m : Machine)
    (h : bits instr 7 0 < TRAP_GETC ∨ TRAP_HALT < bits instr 7 0) :
    op_trap cs instr m =
      (Status.running, { vm := setReg m.vm R_R7 (m.vm.regstr R_PC), tty := m.tty }) := by
  have h1 : bits instr 7 0 ≠ TRAP_GETC := by simp only [TRAP_GETC, TRAP_HALT] at h ⊢; omega
  have h2 : bits instr 7 0 ≠ TRAP_OUT := by simp only [TRAP_GETC, TRAP_HALT, TRAP_OUT] at h ⊢; omega
  have h3 : bits instr 7 0 ≠ TRAP_PUTS := by simp only [TRAP_GETC, TRAP_HALT, TRAP_PUTS] at h ⊢; omega
  have h4 : bits instr 7 0 ≠ TRAP_IN := by simp only [TRAP_GETC, TRAP_HALT, TRAP_IN] at h ⊢; omega
  have h5 : bits instr 7 0 ≠ TRAP_PUTSP := by simp only [TRAP_GETC, TRAP_HALT, TRAP_PUTSP] at h ⊢; omega
  have h6 : bits instr 7 0 ≠ TRAP_HALT := by simp only [TRAP_GETC, TRAP_HALT] at h ⊢; omega
  unfold op_trap
  simp only [dec_7_0, if_neg h1, if_neg h2, if_neg h3, if_neg h4, if_neg h5, if_neg h6]

/-- Every trap vector other than GETC and IN leaves the registers as the save of PC into R7
left them and memory as it was. -/
theorem op_trap_vm_of_no_input (cs : Bool) (instr : Nat) (m : Machine)
    (h1 : bits instr 7 0 ≠ TRAP_GETC) (h4 : bits instr 7 0 ≠ TRAP_IN) :
    (op_trap cs instr m).2.vm = setReg m.vm R_R7 (m.vm.regstr R_PC) := by
  by_cases h2 : bits instr 7 0 = TRAP_OUT
  · rw [op_trap_out cs instr m h2]
  by_cases h3 : bits instr 7 0 = TRAP_PUTS
  · rw [op_trap_puts cs instr m h3]; split <;> rfl
  by_cases h5 : bits instr 7 0 = TRAP_PUTSP
  · rw [op_trap_putsp cs instr m h5]; split <;> rfl
  by_cases h6 : bits instr 7 0 = TRAP_HALT
  · rw [op_trap_halt cs instr m h6]
  · rw [op_trap_other cs instr m (by
      simp only [TRAP_GETC, TRAP_OUT, TRAP_PUTS, TRAP_IN, TRAP_PUTSP, TRAP_HALT] at *
      omega)]

/-! ### Well-formed states -/

theorem toUint16_lt (i : Int) : toUint16 i < 65536 := by
  unfold toUint16; omega

theorem afterFetch_WF (m : Machine) (h : m.vm.WF) : (afterFetch m).vm.WF := by
  refine ⟨h.1, fun r => ?_⟩
  by_cases hr : r = R_PC
  · subst hr; rw [afterFetch_pc]; omega
  · rw [afterFetch_regstr_of_ne m r hr]; exact h.2 r

theorem mem_read_WF (m : Machine) (address : Nat) (h : m.vm.WF) :
    (mem_read m address).2.vm.WF := by
  refine ⟨fun a => ?_, fun r => by rw [mem_read_regstr]; exact h.2 r⟩
  unfold mem_read
  split_ifs
  · simp only [mem_write_memory]
    by_cases h1 : a = MR_KBDR
    · subst h1; rw [Function.update_same]; exact toUint16_lt _
    · rw [Function.update_noteq h1]
      by_cases h2 : a = MR_KBSR
      · subst h2; rw [Function.update_same]; decide
      · rw [Function.update_noteq h2]; exact h.1 a
  · simp only [mem_write_memory]
    by_cases h2 : a = MR_KBSR
    · subst h2; rw [Function.update_same]; decide
    · rw [Function.update_noteq h2]; exact h.1 a
  · exact h.1 a

theorem mem_read_val_lt (m : Machine) (address : Nat) (h : m.vm.WF) :
    (mem_read m address).1 < 65536 := by
  have hwf := mem_read_WF m address h
  have e : (mem_read m address).1 = (mem_read m address).2.vm.memory address := by
    unfold mem_read; split_ifs <;> rfl
  rw [e]; exact hwf.1 address

/-! ### Condition flags after a register write -/

theorem update_flags_cd_cases (vm : vmState) (r : Nat) :
    (update_flags vm r).regstr R_CD = COND_P ∨ (update_flags vm r).regstr R_CD = COND_Z ∨
      (update_flags vm r).regstr R_CD = COND_N := by
  unfold update_flags; split_ifs <;> simp

theorem flags_after_write (vm : vmState) (r v : Nat) (hr : r ≠ R_CD) (hv : v < 65536) :
    (update_flags (setReg vm r v) r).regstr R_CD =
      classify ((update_flags (setReg vm r v) r).regstr r) := by
  rw [update_flags_setReg_cd vm r v hv, update_flags_setReg_same vm r v hr]

/-! ### The handlers that end in `update_flags` -/

theorem op_add_shape (instr : Nat) (vm : vmState) :
    ∃ v, op_add instr vm = update_flags (setReg vm (bits instr 11 9) v) (bits instr 11 9) ∧
      v < 65536 := by
  simp only [op_add, dec_11_9]
  split_ifs
  · exact ⟨_, rfl, Nat.mod_lt _ (by decide)⟩
  · exact ⟨_, rfl, Nat.mod_lt _ (by decide)⟩

theorem op_and_shape (instr : Nat) (vm : vmState) :
    ∃ v, op_and instr vm = update_flags (setReg vm (bits instr 11 9) v) (bits instr 11 9) ∧
      (vm.WF → v < 65536) := by
  simp only [op_and, dec_11_9]
  split_ifs
  · exact ⟨_, rfl, fun h => Nat.lt_of_le_of_lt Nat.and_le_left (h.2 _)⟩
  · exact ⟨_, rfl, fun h => Nat.lt_of_le_of_lt Nat.and_le_left (h.2 _)⟩

theorem op_not_shape (instr : Nat) (vm : vmState) :
    ∃ v, op_not instr vm = update_flags (setReg vm (bits instr 11 9) v) (bits instr 11 9) ∧
      v < 65536 := by
  simp only [op_not, dec_11_9]
  exact ⟨_, rfl, toUint16_lt _⟩

theorem op_lea_shape (instr : Nat) (vm : vmState) :
    ∃ v, op_lea instr vm = update_flags (setReg vm (bits instr 11 9) v) (bits instr 11 9) ∧
      v < 65536 := by
  simp only [op_lea, dec_11_9]
  exact ⟨_, rfl, Nat.mod_lt _ (by decide)⟩

theorem op_ld_shape (instr : Nat) (m : Machine) :
    ∃ vm v, (op_ld instr m).vm =
        update_flags (setReg vm (bits instr 11 9) v) (bits instr 11 9) ∧
      (m.vm.WF → v < 65536) := by
  simp only [op_ld, dec_11_9]
  exact ⟨_, _, rfl, fun h => mem_read_val_lt _ _ h⟩

theorem op_ldi_shape (instr : Nat) (m : Machine) :
    ∃ vm v, (op_ldi instr m).vm =
        update_flags (setReg vm (bits instr 11 9) v) (bits instr 11 9) ∧
      (m.vm.WF → v < 65536) := by
  simp only [op_ldi, dec_11_9]
  exact ⟨_, _, rfl, fun h => mem_read_val_lt _ _ (mem_read_WF _ _ h)⟩

theorem op_ldr_shape (instr : Nat) (m : Machine) :
    ∃ vm v, (op_ldr instr m).vm =
        update_flags (setReg vm (bits instr 11 9) v) (bits instr 11 9) ∧
      (m.vm.WF → v < 65536) := by
  simp only [op_ldr, dec_11_9]
  exact ⟨_, _, rfl, fun h => mem_read_val_lt _ _ h⟩

/-- After a step that executes ADD, AND, NOT, LD, LDI, LDR or LEA the registers are the
result of a write to the register named in bits 11..9 followed by `update_flags` on it. -/
theorem step_flag_shape (cs : Bool) (m : Machine)
    (h : fetch m >>> 12 = OP_ADD ∨ fetch m >>> 12 = OP_AND ∨ fetch m >>> 12 = OP_NOT ∨
      fetch m >>> 12 = OP_LD ∨ fetch m >>> 12 = OP_LDI ∨ fetch m >>> 12 = OP_LDR ∨
      fetch m >>> 12 = OP_LEA) :
    ∃ vm v, (step cs m).2.vm =
        update_flags (setReg vm (bits (fetch m) 11 9) v) (bits (fetch m) 11 9) ∧
      (m.vm.WF → v < 65536) := by
  rcases h with h | h | h | h | h | h | h
  · rw [step_add cs m h]
    obtain ⟨v, e, hv⟩ := op_add_shape (fetch m) (afterFetch m).vm
    exact ⟨_, v, e, fun _ => hv⟩
  · rw [step_and cs m h]
    obtain ⟨v, e, hv⟩ := op_and_shape (fetch m) (afterFetch m).vm
    exact ⟨_, v, e, fun hw => hv (afterFetch_WF m hw)⟩
  · rw [step_not cs m h]
    obtain ⟨v, e, hv⟩ := op_not_shape (fetch m) (afterFetch m).vm
    exact ⟨_, v, e, fun _ => hv⟩
  · rw [step_ld cs m h]
    obtain ⟨vm, v, e, hv⟩ := op_ld_shape (fetch m) (afterFetch m)
    exact ⟨vm, v, e, fun hw => hv (afterFetch_WF m hw)⟩
  · rw [step_ldi cs m h]
    obtain ⟨vm, v, e, hv⟩ := op_ldi_shape (fetch m) (afterFetch m)
    exact ⟨vm, v, e, fun hw => hv (afterFetch_WF m hw)⟩
  · rw [step_ldr cs m h]
    obtain ⟨vm, v, e, hv⟩ := op_ldr_shape (fetch m) (afterFetch m)
    exact ⟨vm, v, e, fun hw => hv (afterFetch_WF m hw)⟩
  · rw [step_lea cs m h]
    obtain ⟨v, e, hv⟩ := op_lea_shape (fetch m) (afterFetch m).vm
    exact ⟨_, v, e, fun _ => hv⟩

/-- After the GETC or IN trap the registers are the result of a write of a 16-bit value to
R0 followed by `update_flags` on R0. -/
theorem step_input_trap_shape (cs : Bool) (m : Machine) (h : fetch m >>> 12 = OP_TRAP)
    (hv : bits (fetch m) 7 0 = TRAP_GETC ∨ bits (fetch m) 7 0 = TRAP_IN) :
    ∃ vm v, (step cs m).2.vm = update_flags (setReg vm R_R0 v) R_R0 ∧ v < 65536 := by
  rw [step_trap cs m h]
  rcases hv with hv | hv
  · rw [op_trap_getc cs _ _ hv]; exact ⟨_, _, rfl, toUint16_lt _⟩
  · rw [op_trap_in cs _ _ hv]; exact ⟨_, _, rfl, toUint16_lt _⟩

/-! ### The handlers that leave the condition flags alone -/

theorem op_jmp_eq (instr : Nat) (vm : vmState) :
    op_jmp instr vm = setReg vm R_PC (vm.regstr (bits instr 8 6)) := by
  simp only [op_jmp, dec_8_6]

theorem op_str_eq (instr : Nat) (vm : vmState) :
    op_str instr vm =
      mem_write vm ((vm.regstr (bits instr 8 6) + sign_extend (bits instr 5 0) 6) % 65536)
        (vm.regstr (bits instr 11 9)) := by
  simp only [op_str, dec_11_9, dec_8_6, dec_5_0]

theorem op_sti_eq (instr : Nat) (m : Machine) :
    op_sti instr m =
      { vm := mem_write
          (mem_read m ((m.vm.regstr R_PC + sign_extend (bits instr 8 0) 9) % 65536)).2.vm
          (mem_read m ((m.vm.regstr R_PC + sign_extend (bits instr 8 0) 9) % 65536)).1
          (m.vm.regstr (bits instr 11 9)),
        tty := (mem_read m ((m.vm.regstr R_PC + sign_extend (bits instr 8 0) 9) % 65536)).2.tty } := by
  simp only [op_sti, dec_11_9, dec_8_0, mem_read_regstr]

/-- A step that executes BR, JMP, JSR, ST, STI, STR, a trap other than GETC and IN, or that
aborts, leaves `regstr[R_CD]` as it was. -/
theorem step_cd_unchanged (cs : Bool) (m : Machine)
    (h : fetch m >>> 12 = OP_BR ∨ fetch m >>> 12 = OP_JMP ∨ fetch m >>> 12 = OP_JSR ∨
      fetch m >>> 12 = OP_ST ∨ fetch m >>> 12 = OP_STI ∨ fetch m >>> 12 = OP_STR ∨
      (fetch m >>> 12 = OP_TRAP ∧ bits (fetch m) 7 0 ≠ TRAP_GETC ∧
        bits (fetch m) 7 0 ≠ TRAP_IN) ∨
      (fetch m >>> 12 = OP_RTI ∨ fetch m >>> 12 = OP_RES ∨ 16 ≤ fetch m >>> 12)) :
    (step cs m).2.vm.regstr R_CD = m.vm.regstr R_CD := by
  have h0 : (afterFetch m).vm.regstr R_CD = m.vm.regstr R_CD :=
    afterFetch_regstr_of_ne m _ (by decide)
  rcases h with h | h | h | h | h | h | ⟨h, h1, h4⟩ | h
  · rw [step_br cs m h]
    simp only [op_br_eq]
    split_ifs
    · simp only [setReg_regstr, Function.update_noteq (show R_CD ≠ R_PC by decide)]
      exact h0
    · exact h0
  · rw [step_jmp cs m h]
    simp only [op_jmp_eq, setReg_regstr, Function.update_noteq (show R_CD ≠ R_PC by decide)]
    exact h0
  · rw [step_jsr cs m h]
    simp only [op_jsr_eq]
    split_ifs <;>
    · simp only [setReg_regstr, Function.update_noteq (show R_CD ≠ R_PC by decide),
        Function.update_noteq (show R_CD ≠ R_R7 by decide)]
      exact h0
  · rw [step_st cs m h]
    simp only [op_st_eq, mem_write_regstr]
    exact h0
  · rw [step_sti cs m h]
    simp only [op_sti_eq, mem_write_regstr, mem_read_regstr]
    exact h0
  · rw [step_str cs m h]
    simp only [op_str_eq, mem_write_regstr]
    exact h0
  · rw [step_trap cs m h, op_trap_vm_of_no_input cs _ _ h1 h4]
    simp only [setReg_regstr, Function.update_noteq (show R_CD ≠ R_R7 by decide)]
    exact h0
  · rw [step_abort cs m h]
    exact h0

/-! ### The condition flags stay one of the three flags -/

theorem step_cd_valid (cs : Bool) (m : Machine)
    (h : m.vm.regstr R_CD = COND_P ∨ m.vm.regstr R_CD = COND_Z ∨ m.vm.regstr R_CD = COND_N) :
    (step cs m).2.vm.regstr R_CD = COND_P ∨ (step cs m).2.vm.regstr R_CD = COND_Z ∨
      (step cs m).2.vm.regstr R_CD = COND_N := by
  have hc : (fetch m >>> 12 = OP_ADD ∨ fetch m >>> 12 = OP_AND ∨ fetch m >>> 12 = OP_NOT ∨
      fetch m >>> 12 = OP_LD ∨ fetch m >>> 12 = OP_LDI ∨ fetch m >>> 12 = OP_LDR ∨
      fetch m >>> 12 = OP_LEA) ∨ fetch m >>> 12 = OP_TRAP ∨
      (fetch m >>> 12 = OP_BR ∨ fetch m >>> 12 = OP_JMP ∨ fetch m >>> 12 = OP_JSR ∨
        fetch m >>> 12 = OP_ST ∨ fetch m >>> 12 = OP_STI ∨ fetch m >>> 12 = OP_STR) ∨
      (fetch m >>> 12 = OP_RTI ∨ fetch m >>> 12 = OP_RES ∨ 16 ≤ fetch m >>> 12) := by
    simp only [OP_ADD, OP_AND, OP_NOT, OP_LD, OP_LDI, OP_LDR, OP_LEA, OP_TRAP, OP_BR, OP_JMP,
      OP_JSR, OP_ST, OP_STI, OP_STR, OP_RTI, OP_RES]
    omega
  rcases hc with hf | ht | hs | ha
  · obtain ⟨vm, v, e, _⟩ := step_flag_shape cs m hf
    rw [e]; exact update_flags_cd_cases _ _
  · by_cases hv : bits (fetch m) 7 0 = TRAP_GETC ∨ bits (fetch m) 7 0 = TRAP_IN
    · obtain ⟨vm, v, e, _⟩ := step_input_trap_shape cs m ht hv
      rw [e]; exact update_flags_cd_cases _ _
    · rw [step_cd_unchanged cs m
        (Or.inr (Or.inr (Or.inr (Or.inr (Or.inr (Or.inr (Or.inl
          ⟨ht, fun h1 => hv (Or.inl h1), fun h4 => hv (Or.inr h4)⟩)))))))]
      exact h
  · rw [step_cd_unchanged cs m (by
      rcases hs with hs | hs | hs | hs | hs | hs <;> simp [hs])]
    exact h
  · rw [step_cd_unchanged cs m (Or.inr (Or.inr (Or.inr (Or.inr (Or.inr (Or.inr (Or.inr ha)))))))]
    exact h

theorem run_cd_valid (cs : Bool) (n : Nat) :
    ∀ m : Machine,
      (m.vm.regstr R_CD = COND_P ∨ m.vm.regstr R_CD = COND_Z ∨ m.vm.regstr R_CD = COND_N) →
      ((run cs n m).2.vm.regstr R_CD = COND_P ∨ (run cs n m).2.vm.regstr R_CD = COND_Z ∨
        (run cs n m).2.vm.regstr R_CD = COND_N) := by
  induction n with
  | zero => intro m h; exact h
  | succ n ih =>
    intro m h
    have hs := step_cd_valid cs m h
    unfold run
    split
    · next m1 heq =>
      rw [heq] at hs
      exact ih m1 hs
    · next m1 heq =>
      rw [heq] at hs
      exact ih m1 hs
    · exact hs

/-! ### `case OP_AND` -/

theorem bits_5_5_cases (w : Nat) : bits w 5 5 = 0 ∨ bits w 5 5 = 1 := by
  simp only [bits, Nat.reducePow, Nat.reduceAdd, Nat.reduceSub]; omega

theorem op_and_eq (instr : Nat) (vm : vmState) :
    op_and instr vm =
      update_flags
        (setReg vm (bits instr 11 9)
          (if bits instr 5 5 = 1 then
            vm.regstr (bits instr 8 6) &&& sign_extend (bits instr 4 0) 5
          else vm.regstr (bits instr 8 6) &&& vm.regstr (bits instr 2 0)))
        (bits instr 11 9) := by
  have h5 : bits instr 5 5 ≠ 0 ↔ bits instr 5 5 = 1 := by
    rcases bits_5_5_cases instr with h | h <;> simp [h]
  simp only [op_and, dec_11_9, dec_8_6, dec_5, dec_4_0]
  simp only [dec_2_0, h5]
  split_ifs <;> rfl

/-! ### The string traps -/

theorem putc_toChar (cs : Bool) (w : Nat) (t : Terminal) :
    putc (toChar cs (w : Int)) t = { t with stdout := t.stdout ++ [w % 256] } := by
  have e : ((toChar cs (w : Int)) % 256).toNat = w % 256 := by
    unfold toChar; cases cs <;> simp <;> omega
  simp only [putc, e]

theorem putsOutput_length (memory : Nat → Nat) (k : Nat) :
    ∀ c, (putsOutput memory c k).length = k := by
  induction k with
  | zero => intro c; rfl
  | succ k ih => intro c; simp [putsOutput, ih]

theorem putsOutput_get (memory : Nat → Nat) (k : Nat) :
    ∀ c i, i < k → (putsOutput memory c k)[i]? = some (memory (c + i) % 256) := by
  induction k with
  | zero => intro c i h; omega
  | succ k ih =>
    intro c i h
    cases i with
    | zero => simp [putsOutput]
    | succ i =>
      simp only [putsOutput, List.getElem?_cons_succ]
      rw [ih (c + 1) i (by omega)]
      congr 3; omega

/-- The PUTS loop, when the first zero word is `k` words ahead and inside the array. -/
theorem puts_loop_spec (cs : Bool) (memory : Nat → Nat) (k : Nat) :
    ∀ (c n : Nat) (t : Terminal), (∀ i, i < k → memory (c + i) ≠ 0) → memory (c + k) = 0 →
      k < n →
      puts_loop cs memory c n t =
        some { t with stdout := t.stdout ++ putsOutput memory c k } := by
  induction k with
  | zero =>
    intro c n t _ hz hn
    obtain ⟨n, rfl⟩ : ∃ n', n = n' + 1 := ⟨n - 1, by omega⟩
    simp only [Nat.add_zero] at hz
    simp [puts_loop, hz, putsOutput]
  | succ k ih =>
    intro c n t hnz hz hn
    obtain ⟨n, rfl⟩ : ∃ n', n = n' + 1 := ⟨n - 1, by omega⟩
    have h0 : memory c ≠ 0 := by simpa using hnz 0 (by omega)
    rw [puts_loop, if_pos h0, putc_toChar,
      ih (c + 1) n _ (fun i hi => by
        have := hnz (i + 1) (by omega)
        rwa [show c + 1 + i = c + (i + 1) by omega])
        (by rwa [show c + 1 + k = c + (k + 1) by omega]) (by omega)]
    simp [putsOutput]

theorem putsp_body_eq (cs : Bool) (w : Nat) (hw : w < 65536) (t : Terminal) :
    putsp_body cs w t = { t with stdout := t.stdout ++ packedBytes w } := by
  have hlo : (w &&& 0xFF) = w % 256 := and_0xFF w
  have hhi : w >>> 8 = w / 256 := by rw [Nat.shiftRight_eq_div_pow]
  have hlt : w / 256 < 256 := by omega
  have hz : toChar cs ((w / 256 : Nat) : Int) ≠ 0 ↔ ¬ (w / 256 = 0) := by
    unfold toChar; cases cs <;> simp <;> omega
  unfold putsp_body packedBytes
  simp only [hlo, hhi, putc_toChar, hz]
  split_ifs
  · simp
  · simp [Nat.mod_eq_of_lt hlt]

/-- The PUTSP loop, when the first zero word is `k` words ahead and inside the array. -/
theorem putsp_loop_spec (cs : Bool) (memory : Nat → Nat) (hwf : ∀ a, memory a < 65536)
    (k : Nat) :
    ∀ (c n : Nat) (t : Terminal), (∀ i, i < k → memory (c + i) ≠ 0) → memory (c + k) = 0 →
      k < n →
      putsp_loop cs memory c n t =
        some { t with stdout := t.stdout ++ putspOutput memory c k } := by
  induction k with
  | zero =>
    intro c n t _ hz hn
    obtain ⟨n, rfl⟩ : ∃ n', n = n' + 1 := ⟨n - 1, by omega⟩
    simp only [Nat.add_zero] at hz
    simp [putsp_loop, hz, putspOutput]
  | succ k ih =>
    intro c n t hnz hz hn
    obtain ⟨n, rfl⟩ : ∃ n', n = n' + 1 := ⟨n - 1, by omega⟩
    have h0 : memory c ≠ 0 := by simpa using hnz 0 (by omega)
    rw [putsp_loop, if_pos h0, putsp_body_eq cs _ (hwf c),
      ih (c + 1) n _ (fun i hi => by
        have := hnz (i + 1) (by omega)
        rwa [show c + 1 + i = c + (i + 1) by omega])
        (by rwa [show c + 1 + k = c + (k + 1) by omega]) (by omega)]
    simp [putspOutput]

/-- The registers and memory after a trap that only saves PC into R7. -/
theorem trap_frame (m : Machine) :
    (setReg (afterFetch m).vm R_R7 ((afterFetch m).vm.regstr R_PC)).memory = m.vm.memory ∧
    (∀ i, i ≤ 6 →
      (setReg (afterFetch m).vm R_R7 ((afterFetch m).vm.regstr R_PC)).regstr i =
        m.vm.regstr i) ∧
    (setReg (afterFetch m).vm R_R7 ((afterFetch m).vm.regstr R_PC)).regstr R_CD =
      m.vm.regstr R_CD := by
  refine ⟨rfl, ?_, ?_⟩
  · intro i hi
    simp only [setReg_regstr]
    rw [Function.update_noteq (by simp only [R_R7]; omega)]
    exact afterFetch_regstr_of_ne m i (by simp only [R_PC]; omega)
  · simp only [setReg_regstr]
    rw [Function.update_noteq (by decide)]
    exact afterFetch_regstr_of_ne m _ (by decide)

/-! ### Which steps write memory -/

theorem mem_read_memory_frame (m : Machine) (address a : Nat) (h1 : a ≠ MR_KBSR)
    (h2 : a ≠ MR_KBDR) : (mem_read m address).2.vm.memory a = m.vm.memory a := by
  unfold mem_read
  split_ifs
  · simp only [mem_write_memory, Function.update_noteq h2, Function.update_noteq h1]
  · simp only [mem_write_memory, Function.update_noteq h1]
  · rfl

theorem op_br_memory (instr : Nat) (vm : vmState) : (op_br instr vm).memory = vm.memory := by
  rw [op_br_eq]; split_ifs <;> rfl

theorem op_jsr_memory (instr : Nat) (vm : vmState) : (op_jsr instr vm).memory = vm.memory := by
  rw [op_jsr_eq]; split_ifs <;> rfl

theorem op_ld_memory (instr : Nat) (m : Machine) (a : Nat) (h1 : a ≠ MR_KBSR)
    (h2 : a ≠ MR_KBDR) : (op_ld instr m).vm.memory a = m.vm.memory a := by
  simp only [op_ld, update_flags_memory, setReg_memory]
  exact mem_read_memory_frame _ _ _ h1 h2

theorem op_ldi_memory (instr : Nat) (m : Machine) (a : Nat) (h1 : a ≠ MR_KBSR)
    (h2 : a ≠ MR_KBDR) : (op_ldi instr m).vm.memory a = m.vm.memory a := by
  simp only [op_ldi, update_flags_memory, setReg_memory]
  rw [mem_read_memory_frame _ _ _ h1 h2, mem_read_memory_frame _ _ _ h1 h2]

theorem op_ldr_memory (instr : Nat) (m : Machine) (a : Nat) (h1 : a ≠ MR_KBSR)
    (h2 : a ≠ MR_KBDR) : (op_ldr instr m).vm.memory a = m.vm.memory a := by
  simp only [op_ldr, update_flags_memory, setReg_memory]
  exact mem_read_memory_frame _ _ _ h1 h2

theorem op_trap_memory (cs : Bool) (instr : Nat) (m : Machine) :
    (op_trap cs instr m).2.vm.memory = m.vm.memory := by
  by_cases h1 : bits instr 7 0 = TRAP_GETC
  · rw [op_trap_getc cs instr m h1]; simp
  by_cases h4 : bits instr 7 0 = TRAP_IN
  · rw [op_trap_in cs instr m h4]; simp
  rw [op_trap_vm_of_no_input cs instr m h1 h4]; rfl

/-- A step whose opcode is not ST, STI or STR leaves every memory word other than the two
keyboard words as it was. -/
theorem step_memory_frame (cs : Bool) (m : Machine)
    (h3 : fetch m >>> 12 ≠ OP_ST) (h11 : fetch m >>> 12 ≠ OP_STI)
    (h7 : fetch m >>> 12 ≠ OP_STR) (a : Nat) (ha1 : a ≠ MR_KBSR) (ha2 : a ≠ MR_KBDR) :
    (step cs m).2.vm.memory a = m.vm.memory a := by
  have hc : fetch m >>> 12 = OP_BR ∨ fetch m >>> 12 = OP_ADD ∨ fetch m >>> 12 = OP_LD ∨
      fetch m >>> 12 = OP_JSR ∨ fetch m >>> 12 = OP_AND ∨ fetch m >>> 12 = OP_LDR ∨
      fetch m >>> 12 = OP_NOT ∨ fetch m >>> 12 = OP_LDI ∨ fetch m >>> 12 = OP_JMP ∨
      fetch m >>> 12 = OP_LEA ∨ fetch m >>> 12 = OP_TRAP ∨
      (fetch m >>> 12 = OP_RTI ∨ fetch m >>> 12 = OP_RES ∨ 16 ≤ fetch m >>> 12) := by
    simp only [OP_ST, OP_STI, OP_STR] at h3 h11 h7
    simp only [OP_ADD, OP_AND, OP_NOT, OP_LD, OP_LDI, OP_LDR, OP_LEA, OP_TRAP, OP_BR, OP_JMP,
      OP_JSR, OP_RTI, OP_RES]
    omega
  rcases hc with h | h | h | h | h | h | h | h | h | h | h | h
  · rw [step_br cs m h]; exact congrFun (op_br_memory _ _) a
  · rw [step_add cs m h]
    obtain ⟨v, e, _⟩ := op_add_shape (fetch m) (afterFetch m).vm
    simp only [e, update_flags_memory, setReg_memory, afterFetch_memory]
  · rw [step_ld cs m h]; exact op_ld_memory _ _ a ha1 ha2
  · rw [step_jsr cs m h]; exact congrFun (op_jsr_memory _ _) a
  · rw [step_and cs m h]
    obtain ⟨v, e, _⟩ := op_and_shape (fetch m) (afterFetch m).vm
    simp only [e, update_flags_memory, setReg_memory, afterFetch_memory]
  · rw [step_ldr cs m h]; exact op_ldr_memory _ _ a ha1 ha2
  · rw [step_not cs m h]
    obtain ⟨v, e, _⟩ := op_not_shape (fetch m) (afterFetch m).vm
    simp only [e, update_flags_memory, setReg_memory, afterFetch_memory]
  · rw [step_ldi cs m h]; exact op_ldi_memory _ _ a ha1 ha2
  · rw [step_jmp cs m h, op_jmp_eq]; rfl
  · rw [step_lea cs m h]
    obtain ⟨v, e, _⟩ := op_lea_shape (fetch m) (afterFetch m).vm
    simp only [e, update_flags_memory, setReg_memory, afterFetch_memory]
  · rw [step_trap cs m h, op_trap_memory]; rfl
  · rw [step_abort cs m h]; rfl

/-! ### The string traps when no zero word is ahead -/

theorem puts_loop_none (cs : Bool) (memory : Nat → Nat) (n : Nat) :
    ∀ (c : Nat) (t : Terminal), (∀ i, i < n → memory (c + i) ≠ 0) →
      puts_loop cs memory c n t = none := by
  induction n with
  | zero => intro c t _; rfl
  | succ n ih =>
    intro c t hnz
    have h0 : memory c ≠ 0 := by simpa using hnz 0 (by omega)
    rw [puts_loop, if_pos h0]
    exact ih (c + 1) _ (fun i hi => by
      have := hnz (i + 1) (by omega)
      rwa [show c + 1 + i = c + (i + 1) by omega])

theorem putsp_loop_none (cs : Bool) (memory : Nat → Nat) (n : Nat) :
    ∀ (c : Nat) (t : Terminal), (∀ i, i < n → memory (c + i) ≠ 0) →
      putsp_loop cs memory c n t = none := by
  induction n with
  | zero => intro c t _; rfl
  | succ n ih =>
    intro c t hnz
    have h0 : memory c ≠ 0 := by simpa using hnz 0 (by omega)
    rw [putsp_loop, if_pos h0]
    exact ih (c + 1) _ (fun i hi => by
      have := hnz (i + 1) (by omega)
      rwa [show c + 1 + i = c + (i + 1) by omega])

/-- Whenever no word at an address in R0..0xFFFF is zero, the PUTS and PUTSP loops leave
the memory array: the step ends in `Status.fault`. -/
theorem string_trap_runs_off_memory (cs : Bool) (m : Machine)
    (h : fetch m >>> 12 = OP_TRAP)
    (hv : bits (fetch m) 7 0 = TRAP_PUTS ∨ bits (fetch m) 7 0 = TRAP_PUTSP)
    (hnz : ∀ a, m.vm.regstr R_R0 ≤ a → a ≤ 0xFFFF → m.vm.memory a ≠ 0) :
    (step cs m).1 = Status.fault := by
  have hR0 : (afterFetch m).vm.regstr R_R0 = m.vm.regstr R_R0 :=
    afterFetch_regstr_of_ne m _ (by decide)
  have hall : ∀ i, i < MEMORY_MAX - m.vm.regstr R_R0 →
      m.vm.memory (m.vm.regstr R_R0 + i) ≠ 0 := by
    intro i hi
    rw [MEMORY_MAX_eq] at hi
    exact hnz _ (by omega) (by omega)
  rw [step_trap cs m h]
  rcases hv with hv | hv
  · rw [op_trap_puts cs _ _ hv]
    simp only [afterFetch_memory, hR0, puts_loop_none cs _ _ _ _ hall]
  · rw [op_trap_putsp cs _ _ hv]
    simp only [afterFetch_memory, hR0, putsp_loop_none cs _ _ _ _ hall]

/-! ### The input traps -/

theorem getchar_cons (t : Terminal) (b : Nat) (rest : List Nat) (h : t.stdin = b :: rest) :
    getchar t = ((b : Int), { t with stdin := rest }) := by
  simp only [getchar, h]

theorem toUint16_toChar (cs : Bool) (b : Nat) (hb : b ≤ 255) :
    toUint16 (toChar cs (b : Int)) = if cs = true ∧ 128 ≤ b then 0xFF00 + b else b := by
  unfold toUint16 toChar
  cases cs
  · simp; omega
  · simp only [if_true, true_and]
    split_ifs <;> omega

theorem classify_byte (b : Nat) (hb : b ≤ 255) :
    classify b = if b = 0 then COND_Z else COND_P := by
  unfold classify
  have h15 : b.testBit 15 = false := by
    rw [Nat.testBit_to_div_mod]
    simp only [Nat.reducePow, decide_eq_false_iff_not]
    omega
  simp [h15]

/-- The IN trap on a delivered byte `b`: prompt and echo are written, the byte is consumed,
and R0 receives `b` converted to `char` and then to `uint16_t`, that is `b` itself unless
`char` is signed and `b` is 128 or more, when it is `0xFF00 + b`. -/
theorem in_trap_effect (cs : Bool) (m : Machine) (b : Nat) (rest : List Nat)
    (h : fetch m >>> 12 = OP_TRAP) (hv : bits (fetch m) 7 0 = TRAP_IN)
    (hin : m.tty.stdin = b :: rest) (hb : b ≤ 255) :
    (step cs m).1 = Status.running ∧
    (step cs m).2.tty.stdout = m.tty.stdout ++ promptBytes ++ [b] ∧
    (step cs m).2.tty.stdin = rest ∧
    (step cs m).2.vm.regstr R_R0 = (if cs = true ∧ 128 ≤ b then 0xFF00 + b else b) ∧
    (step cs m).2.vm.regstr R_CD = classify ((step cs m).2.vm.regstr R_R0) ∧
    (step cs m).2.vm.memory = m.vm.memory ∧
    (∀ i, 1 ≤ i → i ≤ 6 → (step cs m).2.vm.regstr i = m.vm.regstr i) := by
  have hg : getchar (writeBytes promptBytes m.tty) =
      ((b : Int), { writeBytes promptBytes m.tty with stdin := rest }) :=
    getchar_cons _ b rest hin
  have hstep : step cs m = (Status.running,
      { vm := update_flags
          (setReg (setReg (afterFetch m).vm R_R7 ((afterFetch m).vm.regstr R_PC)) R_R0
            (if cs = true ∧ 128 ≤ b then 0xFF00 + b else b))
          R_R0,
        tty :=
          { ready := m.tty.ready,
            stdin := rest,
            stdout := m.tty.stdout ++ promptBytes ++ [b % 256] } }) := by
    rw [step_trap cs m h, op_trap_in cs _ _ hv]
    simp only [afterFetch_tty, hg, putc_toChar, toUint16_toChar cs b hb]
    rfl
  have hv16 : (if cs = true ∧ 128 ≤ b then 0xFF00 + b else b) < 65536 := by
    split_ifs <;> omega
  obtain ⟨_, f2, _⟩ := trap_frame m
  refine ⟨by rw [hstep], ?_, by rw [hstep], ?_, ?_, by rw [hstep]; simp, ?_⟩
  · rw [hstep]; simp only [Nat.mod_eq_of_lt (show b < 256 by omega)]
  · rw [hstep]; exact update_flags_setReg_same _ _ _ (by decide)
  · rw [hstep]; exact flags_after_write _ _ _ (by decide) hv16
  · intro i h1 h6
    rw [hstep]
    show (update_flags _ _).regstr i = _
    rw [update_flags_regstr_of_ne _ _ _ (by simp only [R_CD]; omega)]
    simp only [setReg_regstr]
    rw [Function.update_noteq (by simp only [R_R0]; omega)]
    exact f2 i h6

/-! ### Which register slots a step writes -/

theorem update_flags_cd_raw (vm : vmState) (r : Nat) :
    (update_flags vm r).regstr R_CD =
      if vm.regstr r = 0 then COND_Z
      else if vm.regstr r >>> 15 ≠ 0 then COND_N else COND_P := by
  unfold update_flags; split_ifs <;> simp

theorem update_flags_regstr_congr (vm1 vm2 : vmState) (h : vm1.regstr = vm2.regstr)
    (r v : Nat) :
    (update_flags (setReg vm1 r v) r).regstr = (update_flags (setReg vm2 r v) r).regstr := by
  unfold update_flags
  simp only [setReg_regstr, h]
  split_ifs <;> simp only [setReg_regstr, h]

/-- After a step that executes ADD, AND, NOT, LD, LDI, LDR or LEA the register file is the
one left by the fetch, with one value written to the register named in bits 11..9 and
`update_flags` applied to that register. -/
theorem step_dest_regstr (cs : Bool) (s : Machine)
    (h : fetch s >>> 12 = OP_ADD ∨ fetch s >>> 12 = OP_AND ∨ fetch s >>> 12 = OP_NOT ∨
      fetch s >>> 12 = OP_LD ∨ fetch s >>> 12 = OP_LDI ∨ fetch s >>> 12 = OP_LDR ∨
      fetch s >>> 12 = OP_LEA) :
    ∃ v, (step cs s).2.vm.regstr =
      (update_flags (setReg (afterFetch s).vm (bits (fetch s) 11 9) v)
        (bits (fetch s) 11 9)).regstr := by
  rcases h with h | h | h | h | h | h | h
  · rw [step_add cs s h]
    obtain ⟨v, e, _⟩ := op_add_shape (fetch s) (afterFetch s).vm
    exact ⟨v, by rw [e]⟩
  · rw [step_and cs s h]
    obtain ⟨v, e, _⟩ := op_and_shape (fetch s) (afterFetch s).vm
    exact ⟨v, by rw [e]⟩
  · rw [step_not cs s h]
    obtain ⟨v, e, _⟩ := op_not_shape (fetch s) (afterFetch s).vm
    exact ⟨v, by rw [e]⟩
  · rw [step_ld cs s h]
    simp only [op_ld, dec_11_9]
    exact ⟨_, update_flags_regstr_congr _ _ (mem_read_regstr _ _) _ _⟩
  · rw [step_ldi cs s h]
    simp only [op_ldi, dec_11_9]
    exact ⟨_, update_flags_regstr_congr _ _
      ((mem_read_regstr _ _).trans (mem_read_regstr _ _)) _ _⟩
  · rw [step_ldr cs s h]
    simp only [op_ldr, dec_11_9]
    exact ⟨_, update_flags_regstr_congr _ _ (mem_read_regstr _ _) _ _⟩
  · rw [step_lea cs s h]
    obtain ⟨v, e, _⟩ := op_lea_shape (fetch s) (afterFetch s).vm
    exact ⟨v, by rw [e]⟩

/-- What a step with a destination-register field does to the register file: the
destination is one of R0-R7; the PC slot holds the fetch increment; every slot other than
the destination, CondFlag and PC is untouched; CondFlag holds the flag `update_flags`
computes from the value now in the destination. -/
theorem step_dest_effect (cs : Bool) (s : Machine)
    (h : fetch s >>> 12 = OP_ADD ∨ fetch s >>> 12 = OP_AND ∨ fetch s >>> 12 = OP_NOT ∨
      fetch s >>> 12 = OP_LD ∨ fetch s >>> 12 = OP_LDI ∨ fetch s >>> 12 = OP_LDR ∨
      fetch s >>> 12 = OP_LEA) :
    (fetch s >>> 9) &&& 0b111 = bits (fetch s) 11 9 ∧
    bits (fetch s) 11 9 ≤ 7 ∧
    (step cs s).2.vm.regstr R_PC = (s.vm.regstr R_PC + 1) % 65536 ∧
    (∀ i, i ≠ bits (fetch s) 11 9 → i ≠ R_CD → i ≠ R_PC →
      (step cs s).2.vm.regstr i = s.vm.regstr i) ∧
    (step cs s).2.vm.regstr R_CD =
      (if (step cs s).2.vm.regstr (bits (fetch s) 11 9) = 0 then COND_Z
      else if (step cs s).2.vm.regstr (bits (fetch s) 11 9) >>> 15 ≠ 0 then COND_N
      else COND_P) := by
  obtain ⟨v, e⟩ := step_dest_regstr cs s h
  have hlt := bits_11_9_lt (fetch s)
  have hdr : (step cs s).2.vm.regstr (bits (fetch s) 11 9) = v := by
    rw [e]; exact update_flags_setReg_same _ _ _ (bits_11_9_ne_cd _)
  refine ⟨dec_11_9 _, by omega, ?_, ?_, ?_⟩
  · rw [e, update_flags_regstr_of_ne _ _ _ (show R_PC ≠ R_CD by decide)]
    simp only [setReg_regstr]
    rw [Function.update_noteq (Ne.symm (bits_11_9_ne_pc _))]
    exact afterFetch_pc s
  · intro i h1 h2 h3
    rw [e, update_flags_regstr_of_ne _ _ _ h2]
    simp only [setReg_regstr]
    rw [Function.update_noteq h1]
    exact afterFetch_regstr_of_ne s i h3
  · rw [hdr, e, update_flags_cd_raw]
    simp only [setReg_regstr, Function.update_same]

/-- CondFlag changes only in a step that ends in `update_flags`: one of the seven
instructions with a destination register, or the GETC or IN trap. -/
theorem step_cd_changed (cs : Bool) (s : Machine)
    (hch : (step cs s).2.vm.regstr R_CD ≠ s.vm.regstr R_CD) :
    (fetch s >>> 12 = OP_ADD ∨ fetch s >>> 12 = OP_AND ∨ fetch s >>> 12 = OP_NOT ∨
      fetch s >>> 12 = OP_LD ∨ fetch s >>> 12 = OP_LDI ∨ fetch s >>> 12 = OP_LDR ∨
      fetch s >>> 12 = OP_LEA) ∨
    (fetch s >>> 12 = OP_TRAP ∧
      (bits (fetch s) 7 0 = TRAP_GETC ∨ bits (fetch s) 7 0 = TRAP_IN)) := by
  have hc : (fetch s >>> 12 = OP_ADD ∨ fetch s >>> 12 = OP_AND ∨ fetch s >>> 12 = OP_NOT ∨
      fetch s >>> 12 = OP_LD ∨ fetch s >>> 12 = OP_LDI ∨ fetch s >>> 12 = OP_LDR ∨
      fetch s >>> 12 = OP_LEA) ∨ fetch s >>> 12 = OP_TRAP ∨
      (fetch s >>> 12 = OP_BR ∨ fetch s >>> 12 = OP_JMP ∨ fetch s >>> 12 = OP_JSR ∨
        fetch s >>> 12 = OP_ST ∨ fetch s >>> 12 = OP_STI ∨ fetch s >>> 12 = OP_STR) ∨
      (fetch s >>> 12 = OP_RTI ∨ fetch s >>> 12 = OP_RES ∨ 16 ≤ fetch s >>> 12) := by
    simp only [OP_ADD, OP_AND, OP_NOT, OP_LD, OP_LDI, OP_LDR, OP_LEA, OP_TRAP, OP_BR, OP_JMP,
      OP_JSR, OP_ST, OP_STI, OP_STR, OP_RTI, OP_RES]
    omega
  rcases hc with hf | ht | hs | ha
  · exact Or.inl hf
  · by_cases hv : bits (fetch s) 7 0 = TRAP_GETC ∨ bits (fetch s) 7 0 = TRAP_IN
    · exact Or.inr ⟨ht, hv⟩
    · exact absurd (step_cd_unchanged cs s
        (Or.inr (Or.inr (Or.inr (Or.inr (Or.inr (Or.inr (Or.inl
          ⟨ht, fun h1 => hv (Or.inl h1), fun h4 => hv (Or.inr h4)⟩)))))))) hch
  · exact absurd (step_cd_unchanged cs s (by
      rcases hs with hs | hs | hs | hs | hs | hs <;> simp [hs])) hch
  · exact absurd (step_cd_unchanged cs s
      (Or.inr (Or.inr (Or.inr (Or.inr (Or.inr (Or.inr (Or.inr ha)))))))) hch

/-- The invariant along any execution: a sequence of states in which each one has the
registers and memory the step leaves from the one before, whatever became of the
terminal. -/
theorem trace_cd_valid (cs : Bool) (trace : Nat → Machine)
    (h0 : (trace 0).vm.regstr R_CD = COND_P ∨ (trace 0).vm.regstr R_CD = COND_Z ∨
      (trace 0).vm.regstr R_CD = COND_N)
    (hnext : ∀ k, (trace (k + 1)).vm = (step cs (trace k)).2.vm) :
    ∀ k, (trace k).vm.regstr R_CD = COND_P ∨ (trace k).vm.regstr R_CD = COND_Z ∨
      (trace k).vm.regstr R_CD = COND_N := by
  intro k
  induction k with
  | zero => exact h0
  | succ k ih => rw [hnext k]; exact step_cd_valid cs (trace k) ih

/-! ## The claims -/

/-- C1. For every bit count `n` with `1 ≤ n ≤ 15` and every field value `v < 2 ^ n`, the
result of `sign_extend v n` is a 16-bit word which, read as a signed (two-complement)
integer, is `v` read as an `n`-bit signed integer: `v` when `v < 2 ^ (n - 1)` and
`v - 2 ^ n` otherwise. -/
theorem sign_extend_spec (n v : Nat) (hn1 : 1 ≤ n) (hn2 : n ≤ 15) (hv : v < 2 ^ n) :
    sign_extend v n < 65536 ∧
    asInt16 (sign_extend v n) = if v < 2 ^ (n - 1) then (v : Int) else (v : Int) - 2 ^ n := by
  rw [sign_extend_value n v hn1 hn2 hv]
  unfold asInt16
  interval_cases n <;> simp only [Nat.reducePow, Nat.reduceSub] at hv ⊢ <;>
    split_ifs <;> omega

/-- Witness of C1: the 5-bit field `0b11110` is extended to the word that reads -2. -/
theorem sign_extend_spec_witness :
    (1 ≤ 5 ∧ 5 ≤ 15 ∧ 30 < 2 ^ 5) ∧
    sign_extend 30 5 < 65536 ∧ asInt16 (sign_extend 30 5) = -2 :=
  ⟨by decide, by simpa using sign_extend_spec 5 30 (by decide) (by decide) (by decide)⟩

/-- C2. For every 16-bit value `x` and register index `r` in 0..7 holding `x`,
`update_flags` leaves the condition register equal to one of ZERO, NEGATIVE, POSITIVE:
ZERO iff `x = 0`, NEGATIVE iff bit 15 of `x` is set, POSITIVE iff `x` is non-zero with
bit 15 clear; no other register slot and no memory word changes. -/
theorem update_flags_spec (vm : vmState) (r x : Nat) (_hr : r ≤ 7) (hx : x < 65536)
    (hreg : vm.regstr r = x) :
    ((update_flags vm r).regstr R_CD = COND_Z ∨ (update_flags vm r).regstr R_CD = COND_N ∨
      (update_flags vm r).regstr R_CD = COND_P) ∧
    ((update_flags vm r).regstr R_CD = COND_Z ↔ x = 0) ∧
    ((update_flags vm r).regstr R_CD = COND_N ↔ x.testBit 15 = true) ∧
    ((update_flags vm r).regstr R_CD = COND_P ↔ (x ≠ 0 ∧ x.testBit 15 = false)) ∧
    (∀ i, i ≠ R_CD → (update_flags vm r).regstr i = vm.regstr i) ∧
    (update_flags vm r).memory = vm.memory := by
  have hcd := update_flags_cd vm r (hreg ▸ hx)
  rw [hreg] at hcd
  refine ⟨?_, ?_, ?_, ?_, fun i hi => update_flags_regstr_of_ne vm r i hi,
    update_flags_memory vm r⟩
  all_goals
    rw [hcd]; unfold classify
    by_cases h0 : x = 0
    · subst h0; simp [COND_P_eq, COND_Z_eq, COND_N_eq]
    · by_cases h1 : x.testBit 15 = true <;> simp [h0, h1, COND_P_eq, COND_Z_eq, COND_N_eq]

/-- Witness of C2: R1 of `addDemo` holds 3, which is classified POSITIVE. -/
theorem update_flags_spec_witness :
    (R_R1 ≤ 7 ∧ 3 < 65536 ∧ addDemo.vm.regstr R_R1 = 3) ∧
    ((update_flags addDemo.vm R_R1).regstr R_CD = COND_P ↔ ((3 : Nat) ≠ 0 ∧ Nat.testBit 3 15 = false)) :=
  ⟨by decide,
    (update_flags_spec addDemo.vm R_R1 3 (by decide) (by decide) (by decide)).2.2.2.1⟩

/-- C3. For every state whose fetched instruction has opcode 1 (ADD), with `dr` = bits
11..9 and `sr1` = bits 8..6: the step keeps running (overflow is never an error); if bit 5
is set it sets `R[dr]` to `(R[sr1] + sign_extend(bits 4..0, 5)) mod 2^16`, otherwise to
`(R[sr1] + R[bits 2..0]) mod 2^16`; CondFlag becomes the classification of the new
`R[dr]`.  In particular 3 plus the immediate field `0b11110` (-2) gives 1 and POSITIVE, and
0 plus the immediate 0 gives 0 and ZERO. -/
theorem add_step_spec (cs : Bool) (m : Machine) (h : fetch m >>> 12 = OP_ADD) :
    (step cs m).1 = Status.running ∧
    (step cs m).2.vm.regstr (bits (fetch m) 11 9) =
      (if bits (fetch m) 5 5 = 1 then
        (m.vm.regstr (bits (fetch m) 8 6) + sign_extend (bits (fetch m) 4 0) 5) % 65536
      else
        (m.vm.regstr (bits (fetch m) 8 6) + m.vm.regstr (bits (fetch m) 2 0)) % 65536) ∧
    (step cs m).2.vm.regstr R_CD = classify ((step cs m).2.vm.regstr (bits (fetch m) 11 9)) ∧
    (bits (fetch m) 5 5 = 1 → bits (fetch m) 4 0 = 0b11110 →
      m.vm.regstr (bits (fetch m) 8 6) = 3 →
      (step cs m).2.vm.regstr (bits (fetch m) 11 9) = 1 ∧
      (step cs m).2.vm.regstr R_CD = COND_P) ∧
    (bits (fetch m) 5 5 = 1 → bits (fetch m) 4 0 = 0 →
      m.vm.regstr (bits (fetch m) 8 6) = 0 →
      (step cs m).2.vm.regstr (bits (fetch m) 11 9) = 0 ∧
      (step cs m).2.vm.regstr R_CD = COND_Z) := by
  have hs1 : bits (fetch m) 8 6 ≠ R_PC := Nat.ne_of_lt (bits_8_6_lt _)
  have hs2 : bits (fetch m) 2 0 ≠ R_PC := Nat.ne_of_lt (bits_2_0_lt _)
  have hdr : (step cs m).2.vm.regstr (bits (fetch m) 11 9) =
      (if bits (fetch m) 5 5 = 1 then
        (m.vm.regstr (bits (fetch m) 8 6) + sign_extend (bits (fetch m) 4 0) 5) % 65536
      else
        (m.vm.regstr (bits (fetch m) 8 6) + m.vm.regstr (bits (fetch m) 2 0)) % 65536) := by
    rw [step_add cs m h]
    simp only [op_add_dr, afterFetch_regstr_of_ne m _ hs1, afterFetch_regstr_of_ne m _ hs2]
  have hcd : (step cs m).2.vm.regstr R_CD =
      classify ((step cs m).2.vm.regstr (bits (fetch m) 11 9)) := by
    rw [step_add cs m h]; exact op_add_cd _ _
  refine ⟨by rw [step_add cs m h], hdr, hcd, ?_, ?_⟩
  · intro h5 h40 h3
    have h1 : (step cs m).2.vm.regstr (bits (fetch m) 11 9) = 1 := by
      rw [hdr, if_pos h5, h40, h3]; decide
    exact ⟨h1, by rw [hcd, h1]; decide⟩
  · intro h5 h40 h3
    have h1 : (step cs m).2.vm.regstr (bits (fetch m) 11 9) = 0 := by
      rw [hdr, if_pos h5, h40, h3]; decide
    exact ⟨h1, by rw [hcd, h1]; decide⟩

/-- Witness of C3: `ADD R1, R1, #-2` with R1 = 3 leaves 1 in R1 and POSITIVE;
`ADD R1, R1, #0` with R1 = 0 leaves 0 and ZERO. -/
theorem add_step_spec_witness :
    (fetch addDemo >>> 12 = OP_ADD ∧
      (step true addDemo).2.vm.regstr R_R1 = 1 ∧
      (step true addDemo).2.vm.regstr R_CD = COND_P) ∧
    (fetch addZeroDemo >>> 12 = OP_ADD ∧
      (step true addZeroDemo).2.vm.regstr R_R1 = 0 ∧
      (step true addZeroDemo).2.vm.regstr R_CD = COND_Z) :=
  ⟨⟨by decide,
      (add_step_spec true addDemo (by decide)).2.2.2.1 (by decide) (by decide) (by decide)⟩,
    ⟨by decide,
      (add_step_spec true addZeroDemo (by decide)).2.2.2.2 (by decide) (by decide)
        (by decide)⟩⟩

/-- C4. For every state of 16-bit words whose fetched instruction has opcode 10 (LDI),
with `a = (PC after fetch + sign_extend(bits 8..0, 9)) mod 2^16` and neither `a` nor
`memory[a]` equal to the status address 0xFE00: the step sets `R[bits 11..9]` to
`memory[memory[a]]`, sets CondFlag to the classification of that value and leaves memory
unchanged.  In particular with memory[0x3000] = 0x3002, memory[0x3002] = 0x1234 and
`a = 0x3000` the destination register receives 0x1234. -/
theorem ldi_step_spec (cs : Bool) (m : Machine) (a : Nat) (h : fetch m >>> 12 = OP_LDI)
    (hwf : m.vm.WF)
    (ha : a = ((m.vm.regstr R_PC + 1) % 65536 + sign_extend (bits (fetch m) 8 0) 9) % 65536)
    (h1 : a ≠ MR_KBSR) (h2 : m.vm.memory a ≠ MR_KBSR) :
    (step cs m).1 = Status.running ∧
    (step cs m).2.vm.regstr (bits (fetch m) 11 9) = m.vm.memory (m.vm.memory a) ∧
    (step cs m).2.vm.regstr R_CD = classify (m.vm.memory (m.vm.memory a)) ∧
    (step cs m).2.vm.memory = m.vm.memory ∧
    (a = 0x3000 → m.vm.memory 0x3000 = 0x3002 → m.vm.memory 0x3002 = 0x1234 →
      (step cs m).2.vm.regstr (bits (fetch m) 11 9) = 0x1234) := by
  have e1 : ((afterFetch m).vm.regstr R_PC + sign_extend (bits (fetch m) 8 0) 9) % 65536 = a := by
    rw [afterFetch_pc, ha]
  have hstep : step cs m = (Status.running,
      { vm := update_flags
          (setReg (afterFetch m).vm (bits (fetch m) 11 9) (m.vm.memory (m.vm.memory a)))
          (bits (fetch m) 11 9),
        tty := m.tty }) := by
    rw [step_ldi cs m h, op_ldi_of_ne _ _ (by rw [e1]; exact h1)
      (by rw [e1]; exact h2), e1]
    rfl
  have hdr : (step cs m).2.vm.regstr (bits (fetch m) 11 9) = m.vm.memory (m.vm.memory a) := by
    rw [hstep]; exact update_flags_setReg_same _ _ _ (bits_11_9_ne_cd _)
  refine ⟨by rw [hstep], hdr, ?_, ?_, ?_⟩
  · rw [hstep]; exact update_flags_setReg_cd _ _ _ (hwf.1 _)
  · rw [hstep]; simp
  · intro e3 e4 e5
    rw [hdr, e3, e4, e5]

/-- Witness of C4: the example of the claim, run on `ldiDemo`. -/
theorem ldi_step_spec_witness :
    (fetch ldiDemo >>> 12 = OP_LDI ∧ ldiDemo.vm.WF ∧
      0x3000 = ((ldiDemo.vm.regstr R_PC + 1) % 65536 +
        sign_extend (bits (fetch ldiDemo) 8 0) 9) % 65536 ∧
      0x3000 ≠ MR_KBSR ∧ ldiDemo.vm.memory 0x3000 ≠ MR_KBSR) ∧
    (step true ldiDemo).2.vm.regstr R_R2 = 0x1234 :=
  have hwf : ldiDemo.vm.WF :=
    ⟨fun a => by simp only [ldiDemo]; split_ifs <;> decide,
     fun r => by simp only [ldiDemo]; split_ifs <;> decide⟩
  ⟨⟨by decide, hwf, by decide, by decide, by decide⟩,
    (ldi_step_spec true ldiDemo 0x3000 (by decide) hwf (by decide) (by decide)
      (by decide)).2.2.2.2 rfl (by decide) (by decide)⟩

/-- C5 as stated fails at the keyboard status address: `ST R0, #1` stores 0x1234 at 0xFE00,
the following `LD R1, #0` computes the same address, and its read polls the keyboard
(nothing is ready) and loads 0, not 0x1234. -/
theorem st_then_ld_status_counterexample :
    fetch stLdStatusDemo >>> 12 = OP_ST ∧
    stLdStatusDemo.vm.regstr (bits (fetch stLdStatusDemo) 11 9) = 0x1234 ∧
    ((stLdStatusDemo.vm.regstr R_PC + 1) % 65536 +
      sign_extend (bits (fetch stLdStatusDemo) 8 0) 9) % 65536 = 0xFE00 ∧
    fetch (step true stLdStatusDemo).2 >>> 12 = OP_LD ∧
    (((step true stLdStatusDemo).2.vm.regstr R_PC + 1) % 65536 +
      sign_extend (bits (fetch (step true stLdStatusDemo).2) 8 0) 9) % 65536 = 0xFE00 ∧
    (step true (step true stLdStatusDemo).2).2.vm.regstr
      (bits (fetch (step true stLdStatusDemo).2) 11 9) = 0 ∧
    (step true (step true stLdStatusDemo).2).2.vm.regstr
      (bits (fetch (step true stLdStatusDemo).2) 11 9) ≠ 0x1234 := by
  decide

/-- C5, amended. For every state, every value `x` and every address `a` other than the
keyboard status address 0xFE00 (the data address 0xFE02 included), whatever the terminal
holds: when the step executes ST with the source register holding `x` and computed address
`a`, and the next step executes LD with the same computed address `a`, then `x` is in the
destination register of that LD. -/
theorem st_then_ld_spec (cs : Bool) (m : Machine) (x a : Nat)
    (h1 : fetch m >>> 12 = OP_ST)
    (hx : m.vm.regstr (bits (fetch m) 11 9) = x)
    (ha : ((m.vm.regstr R_PC + 1) % 65536 + sign_extend (bits (fetch m) 8 0) 9) % 65536 = a)
    (h2 : fetch (step cs m).2 >>> 12 = OP_LD)
    (ha2 : (((step cs m).2.vm.regstr R_PC + 1) % 65536 +
      sign_extend (bits (fetch (step cs m).2) 8 0) 9) % 65536 = a)
    (hne : a ≠ MR_KBSR) :
    (step cs m).1 = Status.running ∧
    (step cs (step cs m).2).1 = Status.running ∧
    (step cs (step cs m).2).2.vm.regstr (bits (fetch (step cs m).2) 11 9) = x := by
  have hmem : (step cs m).2.vm.memory a = x := by
    rw [step_st cs m h1]
    simp only [op_st_eq, afterFetch_pc, ha, mem_write_memory, Function.update_same,
      afterFetch_regstr_of_ne m _ (bits_11_9_ne_pc _), hx]
  generalize (step cs m).2 = m2 at h2 ha2 hmem
  have e1 : ((afterFetch m2).vm.regstr R_PC + sign_extend (bits (fetch m2) 8 0) 9) % 65536 = a := by
    rw [afterFetch_pc, ha2]
  refine ⟨by rw [step_st cs m h1], by rw [step_ld cs m2 h2], ?_⟩
  rw [step_ld cs m2 h2, op_ld_of_ne _ _ (by rw [e1]; exact hne), e1]
  simp only [afterFetch_memory, hmem]
  exact update_flags_setReg_same _ _ _ (bits_11_9_ne_cd _)

/-- Witness of amended C5: store and reload of 0x1234 at 0x3002 on `stLdDemo`. -/
theorem st_then_ld_spec_witness :
    (fetch stLdDemo >>> 12 = OP_ST ∧
      stLdDemo.vm.regstr (bits (fetch stLdDemo) 11 9) = 0x1234 ∧
      ((stLdDemo.vm.regstr R_PC + 1) % 65536 +
        sign_extend (bits (fetch stLdDemo) 8 0) 9) % 65536 = 0x3002 ∧
      fetch (step true stLdDemo).2 >>> 12 = OP_LD ∧
      (((step true stLdDemo).2.vm.regstr R_PC + 1) % 65536 +
        sign_extend (bits (fetch (step true stLdDemo).2) 8 0) 9) % 65536 = 0x3002 ∧
      0x3002 ≠ MR_KBSR) ∧
    (step true (step true stLdDemo).2).2.vm.regstr R_R1 = 0x1234 :=
  ⟨by decide,
    (st_then_ld_spec true stLdDemo 0x1234 0x3002 (by decide) (by decide) (by decide)
      (by decide) (by decide) (by decide)).2.2⟩

/-- C6. For every state whose fetched instruction has opcode 0 (BR): the branch is taken
iff the AND of the mask in bits 11..9 with CondFlag is non-zero; when taken PC becomes
`(PC + 1 + sign_extend(bits 8..0, 9)) mod 2^16`, otherwise `(PC + 1) mod 2^16`.  Memory,
R0-R7, CondFlag and the terminal are unchanged and the machine keeps running.  A mask of 0
never branches; a mask of 7 always branches once CondFlag is one of the three flags. -/
theorem br_step_spec (cs : Bool) (m : Machine) (h : fetch m >>> 12 = OP_BR) :
    (step cs m).1 = Status.running ∧
    (step cs m).2.vm.regstr R_PC =
      (if bits (fetch m) 11 9 &&& m.vm.regstr R_CD ≠ 0 then
        (m.vm.regstr R_PC + 1 + sign_extend (bits (fetch m) 8 0) 9) % 65536
      else (m.vm.regstr R_PC + 1) % 65536) ∧
    (step cs m).2.vm.memory = m.vm.memory ∧
    (∀ i, i ≠ R_PC → (step cs m).2.vm.regstr i = m.vm.regstr i) ∧
    (step cs m).2.tty = m.tty ∧
    (bits (fetch m) 11 9 = 0 → (step cs m).2.vm.regstr R_PC = (m.vm.regstr R_PC + 1) % 65536) ∧
    (bits (fetch m) 11 9 = 7 →
      (m.vm.regstr R_CD = COND_P ∨ m.vm.regstr R_CD = COND_Z ∨ m.vm.regstr R_CD = COND_N) →
      (step cs m).2.vm.regstr R_PC =
        (m.vm.regstr R_PC + 1 + sign_extend (bits (fetch m) 8 0) 9) % 65536) := by
  have hcd : (afterFetch m).vm.regstr R_CD = m.vm.regstr R_CD :=
    afterFetch_regstr_of_ne m _ (by decide)
  have hpc : (step cs m).2.vm.regstr R_PC =
      (if bits (fetch m) 11 9 &&& m.vm.regstr R_CD ≠ 0 then
        (m.vm.regstr R_PC + 1 + sign_extend (bits (fetch m) 8 0) 9) % 65536
      else (m.vm.regstr R_PC + 1) % 65536) := by
    rw [step_br cs m h]
    simp only [op_br_eq, hcd, afterFetch_pc]
    split_ifs
    · simp only [setReg_regstr, Function.update_same]; omega
    · exact afterFetch_pc m
  refine ⟨by rw [step_br cs m h], hpc, ?_, ?_, by rw [step_br cs m h]; rfl, ?_, ?_⟩
  · rw [step_br cs m h]; simp only [op_br_eq]; split_ifs <;> rfl
  · intro i hi
    rw [step_br cs m h]; simp only [op_br_eq]
    split_ifs
    · simp only [setReg_regstr, Function.update_noteq hi]
      exact afterFetch_regstr_of_ne m i hi
    · exact afterFetch_regstr_of_ne m i hi
  · intro h0
    rw [hpc, h0]; simp
  · intro h7 hfl
    rw [hpc, h7]
    rcases hfl with e | e | e <;> rw [e] <;> simp [COND_P_eq, COND_Z_eq, COND_N_eq]

/-- Witness of C6: `BRz #5` with CondFlag = ZERO moves PC from 0x3000 to 0x3006. -/
theorem br_step_spec_witness :
    fetch brDemo >>> 12 = OP_BR ∧ (step true brDemo).2.vm.regstr R_PC = 0x3006 :=
  ⟨by decide, by simpa using (br_step_spec true brDemo (by decide)).2.1⟩

/-- C7. For every state whose fetched instruction has opcode 4 (JSR/JSRR), with
`P = (PC + 1) mod 2^16`: the step sets R7 to `P`; if bit 11 is set PC becomes
`(P + sign_extend(bits 10..0, 11)) mod 2^16`, otherwise PC becomes the value that the
register named in bits 8..6 holds after that save.  So JSRR with base register R7 ends
with `PC = P`, not with the address R7 held before.  Memory, R0-R6, CondFlag and the
terminal are unchanged and the machine keeps running. -/
theorem jsr_step_spec (cs : Bool) (m : Machine) (h : fetch m >>> 12 = OP_JSR) :
    (step cs m).1 = Status.running ∧
    (step cs m).2.vm.regstr R_R7 = (m.vm.regstr R_PC + 1) % 65536 ∧
    (bits (fetch m) 11 11 = 1 →
      (step cs m).2.vm.regstr R_PC =
        ((m.vm.regstr R_PC + 1) % 65536 + sign_extend (bits (fetch m) 10 0) 11) % 65536) ∧
    (bits (fetch m) 11 11 = 0 → bits (fetch m) 8 6 ≠ R_R7 →
      (step cs m).2.vm.regstr R_PC = m.vm.regstr (bits (fetch m) 8 6)) ∧
    (bits (fetch m) 11 11 = 0 → bits (fetch m) 8 6 = R_R7 →
      (step cs m).2.vm.regstr R_PC = (m.vm.regstr R_PC + 1) % 65536 ∧
      (m.vm.regstr R_R7 ≠ (m.vm.regstr R_PC + 1) % 65536 →
        (step cs m).2.vm.regstr R_PC ≠ m.vm.regstr R_R7)) ∧
    (step cs m).2.vm.memory = m.vm.memory ∧
    (∀ i, i ≤ 6 → (step cs m).2.vm.regstr i = m.vm.regstr i) ∧
    (step cs m).2.vm.regstr R_CD = m.vm.regstr R_CD ∧
    (step cs m).2.tty = m.tty := by
  have frame : ∀ i, i ≠ R_PC → i ≠ R_R7 → (step cs m).2.vm.regstr i = m.vm.regstr i := by
    intro i h8 h7
    rw [step_jsr cs m h]; simp only [op_jsr_eq]
    split_ifs <;>
    · simp only [setReg_regstr, Function.update_noteq h8, Function.update_noteq h7]
      exact afterFetch_regstr_of_ne m i h8
  have hpc0 : bits (fetch m) 11 11 = 0 → (step cs m).2.vm.regstr R_PC =
      Function.update (afterFetch m).vm.regstr R_R7 ((m.vm.regstr R_PC + 1) % 65536)
        (bits (fetch m) 8 6) := by
    intro h0
    rw [step_jsr cs m h]
    simp only [op_jsr_eq, h0, setReg_regstr, Function.update_same, afterFetch_pc]
    simp
  refine ⟨by rw [step_jsr cs m h], ?_, ?_, ?_, ?_, ?_, ?_, ?_, by rw [step_jsr cs m h]; rfl⟩
  · rw [step_jsr cs m h]; simp only [op_jsr_eq]
    split_ifs <;>
      simp only [setReg_regstr, Function.update_noteq (show R_R7 ≠ R_PC by decide),
        Function.update_same, afterFetch_pc]
  · intro h1
    rw [step_jsr cs m h]
    simp only [op_jsr_eq, h1, setReg_regstr, Function.update_same, afterFetch_pc,
      Function.update_noteq (show R_PC ≠ R_R7 by decide)]
    simp
  · intro h0 hne
    rw [hpc0 h0, Function.update_noteq hne]
    exact afterFetch_regstr_of_ne m _ (bits_8_6_ne_pc _)
  · intro h0 he
    have hP : (step cs m).2.vm.regstr R_PC = (m.vm.regstr R_PC + 1) % 65536 := by
      rw [hpc0 h0, he, Function.update_same]
    exact ⟨hP, fun hne hc => hne (by rw [← hc, hP])⟩
  · rw [step_jsr cs m h]; simp only [op_jsr_eq]; split_ifs <;> rfl
  · intro i hi
    exact frame i (by simp only [R_PC]; omega) (by simp only [R_R7]; omega)
  · exact frame R_CD (by decide) (by decide)

/-- Witness of C7: `JSRR R7` at 0x3000 with R7 = 0x4000 ends with PC = 0x3001. -/
theorem jsr_step_spec_witness :
    (fetch jsrrDemo >>> 12 = OP_JSR ∧ bits (fetch jsrrDemo) 11 11 = 0 ∧
      bits (fetch jsrrDemo) 8 6 = R_R7) ∧
    (step true jsrrDemo).2.vm.regstr R_PC = 0x3001 ∧
    (step true jsrrDemo).2.vm.regstr R_PC ≠ jsrrDemo.vm.regstr R_R7 :=
  ⟨by decide,
    by simpa using
      ((jsr_step_spec true jsrrDemo (by decide)).2.2.2.2.1 (by decide) (by decide)).1,
    ((jsr_step_spec true jsrrDemo (by decide)).2.2.2.2.1 (by decide) (by decide)).2
      (by decide)⟩

/-- C8. `mem_read(address)`, for every state and address.  At 0xFE00 with nothing
available: returns 0, sets memory[0xFE00] to 0, leaves every other word (0xFE02 included)
unchanged and consumes no input.  At 0xFE00 with a character `c` available: returns 0x8000,
sets memory[0xFE00] to 0x8000 and memory[0xFE02] to `c`, and consumes exactly that
character.  At every other address (0xFE02 included): returns memory[address] and changes
neither memory nor the terminal.  Registers never change. -/
theorem mem_read_spec (m : Machine) (address : Nat) :
    (address = MR_KBSR → (checkKeys m.tty).1 = false →
      (mem_read m address).1 = 0 ∧
      (mem_read m address).2.vm.memory MR_KBSR = 0 ∧
      (∀ a, a ≠ MR_KBSR → (mem_read m address).2.vm.memory a = m.vm.memory a) ∧
      (mem_read m address).2.tty.stdin = m.tty.stdin) ∧
    (address = MR_KBSR → (checkKeys m.tty).1 = true →
      ∀ c rest, m.tty.stdin = c :: rest → c < 256 →
        (mem_read m address).1 = 0x8000 ∧
        (mem_read m address).2.vm.memory MR_KBSR = 0x8000 ∧
        (mem_read m address).2.vm.memory MR_KBDR = c ∧
        (∀ a, a ≠ MR_KBSR → a ≠ MR_KBDR →
          (mem_read m address).2.vm.memory a = m.vm.memory a) ∧
        (mem_read m address).2.tty.stdin = rest) ∧
    (address ≠ MR_KBSR →
      (mem_read m address).1 = m.vm.memory address ∧
      (mem_read m address).2.vm.memory = m.vm.memory ∧
      (mem_read m address).2.tty = m.tty) ∧
    (mem_read m address).2.vm.regstr = m.vm.regstr := by
  refine ⟨?_, ?_, ?_, mem_read_regstr m address⟩
  · intro ha hk
    subst ha
    simp only [mem_read, hk, if_true, Bool.false_eq_true, if_false, mem_write_memory,
      Function.update_same, checkKeys_stdin, true_and, and_true]
    intro a hne
    exact Function.update_noteq hne _ _
  · intro ha hk c rest hin hc
    subst ha
    have hg : getchar (checkKeys m.tty).2 = ((c : Int), { (checkKeys m.tty).2 with stdin := rest }) := by
      have : (checkKeys m.tty).2.stdin = c :: rest := by rw [checkKeys_stdin, hin]
      simp only [getchar, this]
    simp only [mem_read, hk, if_true, mem_write_memory, hg,
      toUint16_natCast c (Nat.lt_trans hc (by decide)), Function.update_same,
      Function.update_noteq (show MR_KBSR ≠ MR_KBDR by decide), true_and]
    refine ⟨by decide, by decide, fun a h1 h2 => ?_, trivial⟩
    rw [Function.update_noteq h2, Function.update_noteq h1]
  · intro hne
    rw [mem_read_of_ne m address hne]
    exact ⟨rfl, rfl, rfl⟩

/-- Witness of C8: on `kbdDemo` the status read returns 0x8000 and takes `A`, leaving `B`;
a read of 0x4000 returns the stored 9. -/
theorem mem_read_spec_witness :
    ((checkKeys kbdDemo.tty).1 = true ∧ kbdDemo.tty.stdin = 65 :: [66] ∧
      (mem_read kbdDemo MR_KBSR).1 = 0x8000 ∧
      (mem_read kbdDemo MR_KBSR).2.vm.memory MR_KBDR = 65 ∧
      (mem_read kbdDemo MR_KBSR).2.tty.stdin = [66]) ∧
    ((0x4000 : Nat) ≠ MR_KBSR ∧ (mem_read kbdDemo 0x4000).1 = 9) :=
  have h := (mem_read_spec kbdDemo MR_KBSR).2.1 rfl (by decide) 65 [66] (by decide) (by decide)
  ⟨⟨by decide, by decide, h.1, h.2.2.1, h.2.2.2.2⟩,
    by decide, by simpa using ((mem_read_spec kbdDemo 0x4000).2.2.1 (by decide)).1⟩

/-- C9. A step ends with the loop halted iff the fetched instruction has opcode 15 and
low 8 bits 0x25 (bits 11..8 play no part).  For every such instruction, whatever memory
holds, the step writes the line `HALT`, sets R7 to the address of the following
instruction, leaves memory, R0-R6 and CondFlag unchanged, and the loop executes no further
instruction: however many passes it is allowed, it stops with the result of this one. -/
theorem halt_step_spec (cs : Bool) (m : Machine) :
    ((step cs m).1 = Status.halted ↔
      (fetch m >>> 12 = OP_TRAP ∧ bits (fetch m) 7 0 = TRAP_HALT)) ∧
    (fetch m >>> 12 = OP_TRAP → bits (fetch m) 7 0 = TRAP_HALT →
      (step cs m).2.tty.stdout = m.tty.stdout ++ haltBytes ∧
      haltBytes = ['H', 'A', 'L', 'T'].map Char.toNat ++ [10] ∧
      (step cs m).2.vm.regstr R_R7 = (m.vm.regstr R_PC + 1) % 65536 ∧
      (step cs m).2.vm.memory = m.vm.memory ∧
      (∀ i, i ≤ 6 → (step cs m).2.vm.regstr i = m.vm.regstr i) ∧
      (step cs m).2.vm.regstr R_CD = m.vm.regstr R_CD ∧
      (∀ n, run cs (n + 1) m = step cs m)) := by
  constructor
  · rw [step_status]
    constructor
    · intro hh
      by_cases ht : fetch m >>> 12 = OP_TRAP
      · rw [if_pos ht] at hh
        rcases op_trap_status cs (fetch m) (afterFetch m) with h | ⟨h, _⟩ | ⟨_, h⟩
        · rw [h] at hh; cases hh
        · rw [h] at hh; cases hh
        · exact ⟨ht, h⟩
      · rw [if_neg ht] at hh
        split_ifs at hh
    · rintro ⟨ht, hv⟩
      rw [if_pos ht, op_trap_halt cs _ _ hv]
  · intro ht hv
    have hstep : step cs m = (Status.halted,
        { vm := setReg (afterFetch m).vm R_R7 ((afterFetch m).vm.regstr R_PC),
          tty := writeBytes haltBytes (afterFetch m).tty }) := by
      rw [step_trap cs m ht, op_trap_halt cs _ _ hv]
    refine ⟨by rw [hstep]; rfl, by decide, ?_, by rw [hstep]; rfl, ?_, ?_, ?_⟩
    · rw [hstep]; simp
    · intro i hi
      rw [hstep]
      simp only [setReg_regstr]
      rw [Function.update_noteq (by simp only [R_R7]; omega)]
      exact afterFetch_regstr_of_ne m i (by simp only [R_PC]; omega)
    · rw [hstep]
      simp only [setReg_regstr]
      rw [Function.update_noteq (by decide)]
      exact afterFetch_regstr_of_ne m _ (by decide)
    · intro n
      rw [hstep]
      simp only [run, hstep]

/-- Witness of C9: the word 0xFA25 halts `haltDemo`, the output is the line `HALT`, and
a loop allowed five passes stops after this one. -/
theorem halt_step_spec_witness :
    (fetch haltDemo >>> 12 = OP_TRAP ∧ bits (fetch haltDemo) 7 0 = TRAP_HALT) ∧
    (step true haltDemo).1 = Status.halted ∧
    (step true haltDemo).2.tty.stdout = haltDemo.tty.stdout ++ haltBytes ∧
    run true 5 haltDemo = step true haltDemo :=
  ⟨by decide, (halt_step_spec true haltDemo).1.mpr (by decide),
    ((halt_step_spec true haltDemo).2 (by decide) (by decide)).1,
    ((halt_step_spec true haltDemo).2 (by decide) (by decide)).2.2.2.2.2.2 4⟩

/-- C10. For every 16-bit instruction word, a step aborts iff the opcode (`instr >> 12`)
is 8 (RTI) or 13 (reserved): with one of these two opcodes it aborts whatever the low 12
bits are, with any of the other fourteen it does not abort. -/
theorem abort_step_spec (cs : Bool) (m : Machine) (hw : fetch m < 65536) :
    (step cs m).1 = Status.aborted ↔ (fetch m >>> 12 = OP_RTI ∨ fetch m >>> 12 = OP_RES) := by
  have hlt : ¬ 16 ≤ fetch m >>> 12 := by
    rw [Nat.shiftRight_eq_div_pow]; simp only [Nat.reducePow]; omega
  rw [step_status]
  by_cases ht : fetch m >>> 12 = OP_TRAP
  · rw [if_pos ht]
    have hn : ¬ (fetch m >>> 12 = OP_RTI ∨ fetch m >>> 12 = OP_RES) := by
      rw [ht]; decide
    rcases op_trap_status cs (fetch m) (afterFetch m) with h | ⟨h, _⟩ | ⟨h, _⟩ <;>
      simp [h, hn]
  · rw [if_neg ht]
    by_cases h8 : fetch m >>> 12 = OP_RTI
    · simp [h8]
    · by_cases h13 : fetch m >>> 12 = OP_RES
      · simp [h13]
      · simp [h8, h13, hlt]

/-- Witness of C10: the word 0x8ABC (opcode 8) aborts `rtiDemo`. -/
theorem abort_step_spec_witness :
    fetch rtiDemo < 65536 ∧ (step true rtiDemo).1 = Status.aborted :=
  ⟨by decide, (abort_step_spec true rtiDemo (by decide)).mpr (Or.inl (by decide))⟩

/-- Loading from a non-zero origin (the part of C11 that the code gets right): for every
origin `o` from 1 to 0xFFFF and every list `ws` of 16-bit words, loading the big-endian
stream of `o :: ws` succeeds, puts `ws[i]` at `o + i` for every
`i < min(length, 65536 - o)`, and leaves every other memory word (the addresses below `o`,
past the image, and any index outside the array) and every register unchanged. -/
theorem readImageFile_from_nonzero_origin (vm : vmState) (o : Nat) (ws : List Nat)
    (ho1 : 1 ≤ o) (ho : o < 65536) (hws : ∀ w ∈ ws, w < 65536) :
    (readImageFile vm (some (wireBytes (o :: ws)))).1 = 1 ∧
    (∀ i (h : i < ws.length), i < 65536 - o →
      (readImageFile vm (some (wireBytes (o :: ws)))).2.memory (o + i) = ws[i]) ∧
    (∀ a, (a < o ∨ o + ws.length ≤ a ∨ 65536 ≤ a) →
      (readImageFile vm (some (wireBytes (o :: ws)))).2.memory a = vm.memory a) ∧
    (readImageFile vm (some (wireBytes (o :: ws)))).2.regstr = vm.regstr := by
  have hmax : (MEMORY_MAX - o) % 65536 = 65536 - o := by
    rw [MEMORY_MAX_eq]; omega
  rw [readImageFile_wire vm o ws ho hws, hmax]
  refine ⟨rfl, ?_, ?_, rfl⟩
  · intro i h hi
    have hlt : i < (ws.take (65536 - o)).length := by
      rw [List.length_take]; omega
    show store_words vm.memory o (ws.take (65536 - o)) (o + i) = ws[i]
    rw [store_words_get _ _ _ _ hlt, List.getElem_take]
  · intro a ha
    show store_words vm.memory o (ws.take (65536 - o)) a = vm.memory a
    rcases ha with ha | ha | ha
    · exact store_words_apply_lt _ _ _ _ ha
    · exact store_words_apply_ge _ _ _ _ (by rw [List.length_take]; omega)
    · exact store_words_apply_ge _ _ _ _ (by rw [List.length_take]; omega)

/-- The stream `[0x3000, 0xABCD]` on zeroed memory puts 0xABCD at 0x3000. -/
theorem readImageFile_from_nonzero_origin_witness :
    ((1 : Nat) ≤ 0x3000 ∧ (0x3000 : Nat) < 65536 ∧ ∀ w ∈ [0xABCD], w < 65536) ∧
    (readImageFile initMem (some (wireBytes [0x3000, 0xABCD]))).2.memory 0x3000 = 0xABCD :=
  ⟨by decide,
    (readImageFile_from_nonzero_origin initMem 0x3000 [0xABCD] (by decide) (by decide)
      (by decide)).2.1 0 (by decide) (by decide)⟩

/-- C11 at origin 0: `max_read` is `MEMORY_MAX - origin` stored in a `uint16_t`, which is 0
when the origin is 0, so nothing at all is loaded.  The stream `[0x0000, 0xABCD]` on zeroed
memory leaves memory[0] = 0 where 0xABCD is due; and for every stream with origin 0 the
memory stays as it was. -/
theorem readImageFile_origin_zero_loads_nothing :
    wireBytes [0x0000, 0xABCD] = [0x00, 0x00, 0xAB, 0xCD] ∧
    (readImageFile initMem (some (wireBytes [0x0000, 0xABCD]))).1 = 1 ∧
    (readImageFile initMem (some (wireBytes [0x0000, 0xABCD]))).2.memory 0 = 0 ∧
    (readImageFile initMem (some (wireBytes [0x0000, 0xABCD]))).2.memory 0 ≠ 0xABCD ∧
    (∀ (vm : vmState) (ws : List Nat),
      (readImageFile vm (some (wireBytes (0 :: ws)))).2.memory = vm.memory) := by
  refine ⟨by decide, by decide, by decide, by decide, ?_⟩
  intro vm ws
  cases ws <;> rfl

/-- C12 on the code: the loading loop starts at `argv[0]`.  Started as `./lc3 prog.obj`
with both files present, the program file itself is loaded as an image before `prog.obj`:
execution begins with memory[0x7F45] = 0x4C46, a word that the image `prog.obj` alone on
zeroed memory does not put there.  When `./lc3` cannot be opened under that name although
`prog.obj` can, the run exits with status 1. -/
theorem main_start_loads_argv0 :
    (main_start demoFs [lc3Path, progPath]).memory?.map (fun mem => mem 0x7F45) = some 0x4C46 ∧
    (main_start demoFs [lc3Path, progPath]).memory?.map (fun mem => mem 0x3000) = some 0xABCD ∧
    (readImageFile initMem (demoFs progPath)).2.memory 0x7F45 = 0 ∧
    imageOnlyFs progPath = some progImage ∧
    (main_start imageOnlyFs [lc3Path, progPath]).status? = some 1 := by
  decide

/-- C13 on the code: the fetch is the plain array access
`memory[regstr[R_PC]++]`, not `mem_read`.  With PC = 0xFE00, a key waiting and the word
0x1021 (`ADD R0, R0, #1`) stored at 0xFE00, the step decodes 0x1021: it keeps running and
R0 becomes 1, the status word, the data word and the terminal are untouched, whereas
`mem_read` of the same address returns 0x8000 and takes the character. -/
theorem fetch_does_not_poll :
    fetchStatusDemo.vm.regstr R_PC = MR_KBSR ∧
    fetch fetchStatusDemo = 0x1021 ∧
    (step true fetchStatusDemo).1 = Status.running ∧
    (step true fetchStatusDemo).2.vm.regstr R_R0 = 1 ∧
    (step true fetchStatusDemo).2.vm.memory MR_KBSR = 0x1021 ∧
    (step true fetchStatusDemo).2.vm.memory MR_KBDR = 0 ∧
    (step true fetchStatusDemo).2.tty.ready = [true] ∧
    (step true fetchStatusDemo).2.tty.stdin = [65] ∧
    (mem_read fetchStatusDemo MR_KBSR).1 = 0x8000 ∧
    (mem_read fetchStatusDemo MR_KBSR).2.vm.memory MR_KBDR = 65 ∧
    (mem_read fetchStatusDemo MR_KBSR).2.tty.stdin = [] ∧
    (∀ m : Machine, fetch m = m.vm.memory (m.vm.regstr R_PC) ∧
      (afterFetch m).vm.memory = m.vm.memory ∧ (afterFetch m).tty = m.tty ∧
      (afterFetch m).vm.regstr R_PC = (m.vm.regstr R_PC + 1) % 65536) := by
  refine ⟨by decide, by decide, by decide, by decide, by decide, by decide, by decide,
    by decide, by decide, by decide, by decide, ?_⟩
  intro m
  exact ⟨rfl, rfl, rfl, afterFetch_pc m⟩

/-- C14. For every state whose fetched instruction has opcode 15 and low 8 bits outside
0x20..0x25, the step performs no service action: the machine stays running, the terminal is
exactly as before (nothing written, nothing consumed, no poll), memory, R0-R6 and CondFlag
are unchanged; PC has advanced to the following instruction and R7 holds that address. -/
theorem undefined_trap_spec (cs : Bool) (m : Machine) (h : fetch m >>> 12 = OP_TRAP)
    (hv : bits (fetch m) 7 0 < 0x20 ∨ 0x25 < bits (fetch m) 7 0) :
    (step cs m).1 = Status.running ∧
    (step cs m).2.tty = m.tty ∧
    (step cs m).2.vm.memory = m.vm.memory ∧
    (∀ i, i ≤ 6 → (step cs m).2.vm.regstr i = m.vm.regstr i) ∧
    (step cs m).2.vm.regstr R_CD = m.vm.regstr R_CD ∧
    (step cs m).2.vm.regstr R_PC = (m.vm.regstr R_PC + 1) % 65536 ∧
    (step cs m).2.vm.regstr R_R7 = (m.vm.regstr R_PC + 1) % 65536 := by
  have hstep : step cs m = (Status.running,
      { vm := setReg (afterFetch m).vm R_R7 ((afterFetch m).vm.regstr R_PC),
        tty := (afterFetch m).tty }) := by
    rw [step_trap cs m h, op_trap_other cs _ _ hv]
  rw [hstep]
  refine ⟨rfl, rfl, rfl, ?_, ?_, ?_, ?_⟩
  · intro i hi
    simp only [setReg_regstr]
    rw [Function.update_noteq (by simp only [R_R7]; omega)]
    exact afterFetch_regstr_of_ne m i (by simp only [R_PC]; omega)
  · simp only [setReg_regstr]
    rw [Function.update_noteq (by decide)]
    exact afterFetch_regstr_of_ne m _ (by decide)
  · simp only [setReg_regstr]
    rw [Function.update_noteq (by decide)]
    exact afterFetch_pc m
  · simp

/-- Witness of C14: the vector 0xFF on `undefinedTrapDemo` changes only PC and R7. -/
theorem undefined_trap_spec_witness :
    (fetch undefinedTrapDemo >>> 12 = OP_TRAP ∧ 0x25 < bits (fetch undefinedTrapDemo) 7 0) ∧
    (step true undefinedTrapDemo).1 = Status.running ∧
    (step true undefinedTrapDemo).2.tty = undefinedTrapDemo.tty ∧
    (step true undefinedTrapDemo).2.vm.regstr R_R7 = 0x3001 :=
  have h := undefined_trap_spec true undefinedTrapDemo (by decide) (Or.inr (by decide))
  ⟨by decide, h.1, h.2.1, by simpa using h.2.2.2.2.2.2⟩

/-- C15. CondFlag is sticky.  In every state of 16-bit words: after a step that executes
ADD, AND, NOT, LD, LDI, LDR or LEA, CondFlag is the ZERO/NEGATIVE/POSITIVE classification
of the value the destination register (bits 11..9) holds after the step; after the GETC or
IN trap it is the classification of the value R0 holds after the step; after BR, JMP,
JSR/JSRR, ST, STI, STR, or a trap with any other vector (OUT, PUTS, PUTSP, HALT, or an
undefined one) CondFlag is what it was before. -/
theorem cond_flag_sticky (cs : Bool) (m : Machine) (hwf : m.vm.WF) :
    ((fetch m >>> 12 = OP_ADD ∨ fetch m >>> 12 = OP_AND ∨ fetch m >>> 12 = OP_NOT ∨
        fetch m >>> 12 = OP_LD ∨ fetch m >>> 12 = OP_LDI ∨ fetch m >>> 12 = OP_LDR ∨
        fetch m >>> 12 = OP_LEA) →
      (step cs m).2.vm.regstr R_CD =
        classify ((step cs m).2.vm.regstr (bits (fetch m) 11 9))) ∧
    (fetch m >>> 12 = OP_TRAP →
      (bits (fetch m) 7 0 = TRAP_GETC ∨ bits (fetch m) 7 0 = TRAP_IN) →
      (step cs m).2.vm.regstr R_CD = classify ((step cs m).2.vm.regstr R_R0)) ∧
    ((fetch m >>> 12 = OP_BR ∨ fetch m >>> 12 = OP_JMP ∨ fetch m >>> 12 = OP_JSR ∨
        fetch m >>> 12 = OP_ST ∨ fetch m >>> 12 = OP_STI ∨ fetch m >>> 12 = OP_STR) →
      (step cs m).2.vm.regstr R_CD = m.vm.regstr R_CD) ∧
    (fetch m >>> 12 = OP_TRAP →
      bits (fetch m) 7 0 ≠ TRAP_GETC → bits (fetch m) 7 0 ≠ TRAP_IN →
      (step cs m).2.vm.regstr R_CD = m.vm.regstr R_CD) := by
  refine ⟨?_, ?_, ?_, ?_⟩
  · intro h
    obtain ⟨vm, v, e, hv⟩ := step_flag_shape cs m h
    rw [e]
    exact flags_after_write vm _ v (bits_11_9_ne_cd _) (hv hwf)
  · intro ht hv
    obtain ⟨vm, v, e, hlt⟩ := step_input_trap_shape cs m ht hv
    rw [e]
    exact flags_after_write vm _ v (by decide) hlt
  · intro h
    exact step_cd_unchanged cs m (by
      rcases h with h | h | h | h | h | h <;> simp [h])
  · intro ht h1 h4
    exact step_cd_unchanged cs m
      (Or.inr (Or.inr (Or.inr (Or.inr (Or.inr (Or.inr (Or.inl ⟨ht, h1, h4⟩)))))))

/-- Witness of C15: after `ADD R1, R1, #-2` on `addDemo` CondFlag classifies the new R1;
after `BRz #5` on `brDemo` CondFlag is unchanged. -/
theorem cond_flag_sticky_witness :
    (addDemo.vm.WF ∧ fetch addDemo >>> 12 = OP_ADD ∧
      (step true addDemo).2.vm.regstr R_CD =
        classify ((step true addDemo).2.vm.regstr (bits (fetch addDemo) 11 9))) ∧
    (brDemo.vm.WF ∧ fetch brDemo >>> 12 = OP_BR ∧
      (step true brDemo).2.vm.regstr R_CD = brDemo.vm.regstr R_CD) :=
  have hwa : addDemo.vm.WF :=
    ⟨fun a => by simp only [addDemo]; split_ifs <;> decide,
     fun r => by simp only [addDemo]; split_ifs <;> decide⟩
  have hwb : brDemo.vm.WF :=
    ⟨fun a => by simp only [brDemo]; split_ifs <;> decide,
     fun r => by simp only [brDemo]; split_ifs <;> decide⟩
  ⟨⟨hwa, by decide, (cond_flag_sticky true addDemo hwa).1 (Or.inl (by decide))⟩,
    ⟨hwb, by decide, (cond_flag_sticky true brDemo hwb).2.2.1 (Or.inl (by decide))⟩⟩

/-- C16. From the initial state (PC = 0x3000, CondFlag = ZERO, any memory, any registers,
any terminal), CondFlag is one of POSITIVE (1), ZERO (2), NEGATIVE (4), three different
values, in every state the loop reaches after any number of passes, a pass in which a
string trap ran off the memory array included; and in every execution, that is every
sequence of states each of which has the registers and memory the step leaves from the one
before, whatever happened on the terminal.  The reason, stated of the step itself: in
every state, a step of an instruction with a destination-register field (ADD, AND, NOT, LD,
LDI, LDR, LEA) decodes it as bits 11..9, an index in 0..7; it leaves in the PC slot the
fetch increment, leaves every slot other than that destination, CondFlag and PC untouched,
and leaves in CondFlag the flag of the value now in the destination; and a step changes
CondFlag only if it is one of those seven instructions or the GETC or IN trap.  Every
register index decoded from an instruction word is in 0..7, below the PC slot 8 and the
CondFlag slot 9. -/
theorem cond_flag_invariant (cs : Bool) (m : Machine)
    (_hpc : m.vm.regstr R_PC = 0x3000) (hcd : m.vm.regstr R_CD = COND_Z) :
    (∀ n, (run cs n m).2.vm.regstr R_CD = COND_P ∨ (run cs n m).2.vm.regstr R_CD = COND_Z ∨
      (run cs n m).2.vm.regstr R_CD = COND_N) ∧
    (∀ trace : Nat → Machine, trace 0 = m →
      (∀ k, (trace (k + 1)).vm = (step cs (trace k)).2.vm) →
      ∀ k, (trace k).vm.regstr R_CD = COND_P ∨ (trace k).vm.regstr R_CD = COND_Z ∨
        (trace k).vm.regstr R_CD = COND_N) ∧
    (COND_P = 1 ∧ COND_Z = 2 ∧ COND_N = 4) ∧
    (∀ s : Machine,
      (fetch s >>> 12 = OP_ADD ∨ fetch s >>> 12 = OP_AND ∨ fetch s >>> 12 = OP_NOT ∨
        fetch s >>> 12 = OP_LD ∨ fetch s >>> 12 = OP_LDI ∨ fetch s >>> 12 = OP_LDR ∨
        fetch s >>> 12 = OP_LEA) →
      (fetch s >>> 9) &&& 0b111 = bits (fetch s) 11 9 ∧
      bits (fetch s) 11 9 ≤ 7 ∧
      (step cs s).2.vm.regstr R_PC = (s.vm.regstr R_PC + 1) % 65536 ∧
      (∀ i, i ≠ bits (fetch s) 11 9 → i ≠ R_CD → i ≠ R_PC →
        (step cs s).2.vm.regstr i = s.vm.regstr i) ∧
      (step cs s).2.vm.regstr R_CD =
        (if (step cs s).2.vm.regstr (bits (fetch s) 11 9) = 0 then COND_Z
        else if (step cs s).2.vm.regstr (bits (fetch s) 11 9) >>> 15 ≠ 0 then COND_N
        else COND_P)) ∧
    (∀ s : Machine, (step cs s).2.vm.regstr R_CD ≠ s.vm.regstr R_CD →
      (fetch s >>> 12 = OP_ADD ∨ fetch s >>> 12 = OP_AND ∨ fetch s >>> 12 = OP_NOT ∨
        fetch s >>> 12 = OP_LD ∨ fetch s >>> 12 = OP_LDI ∨ fetch s >>> 12 = OP_LDR ∨
        fetch s >>> 12 = OP_LEA) ∨
      (fetch s >>> 12 = OP_TRAP ∧
        (bits (fetch s) 7 0 = TRAP_GETC ∨ bits (fetch s) 7 0 = TRAP_IN))) ∧
    (∀ instr : Nat, (instr >>> 9) &&& 0b111 ≤ 7 ∧ (instr >>> 6) &&& 0b111 ≤ 7 ∧
      instr &&& 0b111 ≤ 7) ∧
    (7 < R_PC ∧ 7 < R_CD) := by
  refine ⟨fun n => run_cd_valid cs n m (Or.inr (Or.inl hcd)), ?_, ⟨rfl, rfl, rfl⟩,
    fun s hs => step_dest_effect cs s hs, fun s hch => step_cd_changed cs s hch, ?_,
    by decide⟩
  · intro trace h0 hnext
    exact trace_cd_valid cs trace (by rw [h0]; exact Or.inr (Or.inl hcd)) hnext
  · intro instr
    rw [dec_11_9, dec_8_6, dec_2_0]
    have h1 := bits_11_9_lt instr
    have h2 := bits_8_6_lt instr
    have h3 := bits_2_0_lt instr
    omega

/-- Witness of C16: on `runOffThenAddDemo` (PC = 0x3000, CondFlag = ZERO) the first pass is
a PUTS that runs off the memory array, the loop goes on, the second pass is an ADD that
leaves NEGATIVE; CondFlag is one of the three flags after both passes. -/
theorem cond_flag_invariant_witness :
    (runOffThenAddDemo.vm.regstr R_PC = 0x3000 ∧ runOffThenAddDemo.vm.regstr R_CD = COND_Z) ∧
    (step true runOffThenAddDemo).1 = Status.fault ∧
    (run true 2 runOffThenAddDemo).2.vm.regstr R_PC = 0x3002 ∧
    (run true 2 runOffThenAddDemo).2.vm.regstr R_CD = COND_N ∧
    ((run true 2 runOffThenAddDemo).2.vm.regstr R_CD = COND_P ∨
      (run true 2 runOffThenAddDemo).2.vm.regstr R_CD = COND_Z ∨
      (run true 2 runOffThenAddDemo).2.vm.regstr R_CD = COND_N) :=
  ⟨by decide, by decide, by decide, by decide,
    (cond_flag_invariant true runOffThenAddDemo (by decide) (by decide)).1 2⟩

/-- C17. For every state of 16-bit words whose fetched instruction has opcode 5 (AND),
with `dr` = bits 11..9 and `sr1` = bits 8..6: the step keeps running; if bit 5 is set it
sets `R[dr]` to `R[sr1] AND sign_extend(bits 4..0, 5)` (so the field 0b11111 copies
`R[sr1]` and the field 0 clears `R[dr]`), otherwise to `R[sr1] AND R[bits 2..0]`; CondFlag
becomes the classification of the new `R[dr]`; memory, the terminal and the other general
registers are unchanged. -/
theorem and_step_spec (cs : Bool) (m : Machine) (h : fetch m >>> 12 = OP_AND)
    (hwf : m.vm.WF) :
    (step cs m).1 = Status.running ∧
    (step cs m).2.vm.regstr (bits (fetch m) 11 9) =
      (if bits (fetch m) 5 5 = 1 then
        m.vm.regstr (bits (fetch m) 8 6) &&& sign_extend (bits (fetch m) 4 0) 5
      else m.vm.regstr (bits (fetch m) 8 6) &&& m.vm.regstr (bits (fetch m) 2 0)) ∧
    (bits (fetch m) 5 5 = 1 → bits (fetch m) 4 0 = 0b11111 →
      (step cs m).2.vm.regstr (bits (fetch m) 11 9) = m.vm.regstr (bits (fetch m) 8 6)) ∧
    (bits (fetch m) 5 5 = 1 → bits (fetch m) 4 0 = 0 →
      (step cs m).2.vm.regstr (bits (fetch m) 11 9) = 0) ∧
    (step cs m).2.vm.regstr R_CD = classify ((step cs m).2.vm.regstr (bits (fetch m) 11 9)) ∧
    (step cs m).2.vm.memory = m.vm.memory ∧
    (step cs m).2.tty = m.tty ∧
    (∀ i, i ≤ 7 → i ≠ bits (fetch m) 11 9 → (step cs m).2.vm.regstr i = m.vm.regstr i) := by
  have hs1 : (afterFetch m).vm.regstr (bits (fetch m) 8 6) = m.vm.regstr (bits (fetch m) 8 6) :=
    afterFetch_regstr_of_ne m _ (bits_8_6_ne_pc _)
  have hs2 : (afterFetch m).vm.regstr (bits (fetch m) 2 0) = m.vm.regstr (bits (fetch m) 2 0) :=
    afterFetch_regstr_of_ne m _ (Nat.ne_of_lt (bits_2_0_lt _))
  have hstep : step cs m = (Status.running,
      { vm := update_flags
          (setReg (afterFetch m).vm (bits (fetch m) 11 9)
            (if bits (fetch m) 5 5 = 1 then
              m.vm.regstr (bits (fetch m) 8 6) &&& sign_extend (bits (fetch m) 4 0) 5
            else m.vm.regstr (bits (fetch m) 8 6) &&& m.vm.regstr (bits (fetch m) 2 0)))
          (bits (fetch m) 11 9),
        tty := m.tty }) := by
    rw [step_and cs m h, op_and_eq, hs1, hs2]
    rfl
  have hlt : (if bits (fetch m) 5 5 = 1 then
        m.vm.regstr (bits (fetch m) 8 6) &&& sign_extend (bits (fetch m) 4 0) 5
      else m.vm.regstr (bits (fetch m) 8 6) &&& m.vm.regstr (bits (fetch m) 2 0)) < 65536 := by
    split_ifs <;> exact Nat.lt_of_le_of_lt Nat.and_le_left (hwf.2 _)
  have hdr : (step cs m).2.vm.regstr (bits (fetch m) 11 9) =
      (if bits (fetch m) 5 5 = 1 then
        m.vm.regstr (bits (fetch m) 8 6) &&& sign_extend (bits (fetch m) 4 0) 5
      else m.vm.regstr (bits (fetch m) 8 6) &&& m.vm.regstr (bits (fetch m) 2 0)) := by
    rw [hstep]; exact update_flags_setReg_same _ _ _ (bits_11_9_ne_cd _)
  refine ⟨by rw [hstep], hdr, ?_, ?_, ?_, by rw [hstep]; simp, by rw [hstep], ?_⟩
  · intro h5 h40
    rw [hdr, if_pos h5, h40, show sign_extend 0b11111 5 = 2 ^ 16 - 1 by decide,
      Nat.and_pow_two_sub_one_eq_mod]
    exact Nat.mod_eq_of_lt (hwf.2 _)
  · intro h5 h40
    rw [hdr, if_pos h5, h40, show sign_extend 0 5 = 0 by decide, Nat.and_zero]
  · rw [hstep]; exact flags_after_write _ _ _ (bits_11_9_ne_cd _) hlt
  · intro i hi hne
    rw [hstep]
    show (update_flags _ _).regstr i = _
    rw [update_flags_regstr_of_ne _ _ _ (by simp only [R_CD]; omega)]
    simp only [setReg_regstr, Function.update_noteq hne]
    exact afterFetch_regstr_of_ne m i (by simp only [R_PC]; omega)

/-- Witness of C17: `AND R2, R1, #-1` on `andDemo` copies R1 = 0xBEEF into R2. -/
theorem and_step_spec_witness :
    (fetch andDemo >>> 12 = OP_AND ∧ andDemo.vm.WF ∧ bits (fetch andDemo) 5 5 = 1 ∧
      bits (fetch andDemo) 4 0 = 0b11111) ∧
    (step true andDemo).2.vm.regstr R_R2 = 0xBEEF :=
  have hwf : andDemo.vm.WF :=
    ⟨fun a => by simp only [andDemo]; split_ifs <;> decide,
     fun r => by simp only [andDemo]; split_ifs <;> decide⟩
  ⟨⟨by decide, hwf, by decide, by decide⟩,
    (and_step_spec true andDemo (by decide) hwf).2.2.1 (by decide) (by decide)⟩

/-- C18. For every state whose fetched instruction has opcode 11 (STI), with
`a = (PC after fetch + sign_extend(bits 8..0, 9)) mod 2^16` different from 0xFE00: the step
keeps running and writes the value of the register named in bits 11..9 to
`memory[memory[a]]`, `memory[a]` being the pointer as it was before the write; every other
memory word, all of R0-R7, CondFlag and the terminal are unchanged; the pointer word
`memory[a]` itself changes only when it points at itself. -/
theorem sti_step_spec (cs : Bool) (m : Machine) (a : Nat) (h : fetch m >>> 12 = OP_STI)
    (ha : a = ((m.vm.regstr R_PC + 1) % 65536 + sign_extend (bits (fetch m) 8 0) 9) % 65536)
    (hne : a ≠ MR_KBSR) :
    (step cs m).1 = Status.running ∧
    (step cs m).2.vm.memory (m.vm.memory a) = m.vm.regstr (bits (fetch m) 11 9) ∧
    (∀ b, b ≠ m.vm.memory a → (step cs m).2.vm.memory b = m.vm.memory b) ∧
    (∀ i, i ≤ 7 → (step cs m).2.vm.regstr i = m.vm.regstr i) ∧
    (step cs m).2.vm.regstr R_CD = m.vm.regstr R_CD ∧
    (step cs m).2.tty = m.tty ∧
    ((step cs m).2.vm.memory a ≠ m.vm.memory a → m.vm.memory a = a) := by
  have e1 : ((afterFetch m).vm.regstr R_PC + sign_extend (bits (fetch m) 8 0) 9) % 65536 = a := by
    rw [afterFetch_pc, ha]
  have hstep : step cs m = (Status.running,
      { vm := mem_write (afterFetch m).vm (m.vm.memory a)
          (m.vm.regstr (bits (fetch m) 11 9)),
        tty := m.tty }) := by
    rw [step_sti cs m h, op_sti_eq, e1, mem_read_of_ne _ _ hne,
      afterFetch_regstr_of_ne m _ (bits_11_9_ne_pc _)]
    rfl
  have hframe : ∀ b, b ≠ m.vm.memory a → (step cs m).2.vm.memory b = m.vm.memory b := by
    intro b hb
    rw [hstep]
    simp only [mem_write_memory, Function.update_noteq hb, afterFetch_memory]
  refine ⟨by rw [hstep], ?_, hframe, ?_, ?_, by rw [hstep], ?_⟩
  · rw [hstep]; simp only [mem_write_memory, Function.update_same]
  · intro i hi
    rw [hstep]
    simp only [mem_write_regstr]
    exact afterFetch_regstr_of_ne m i (by simp only [R_PC]; omega)
  · rw [hstep]
    simp only [mem_write_regstr]
    exact afterFetch_regstr_of_ne m _ (by decide)
  · intro hch
    by_contra hp
    exact hch (hframe a (fun e => hp e.symm))

/-- Witness of C18: `STI R3, #1` on `stiDemo` stores 0x5678 at 0x4000, the address held
in memory[0x3002]. -/
theorem sti_step_spec_witness :
    (fetch stiDemo >>> 12 = OP_STI ∧
      0x3002 = ((stiDemo.vm.regstr R_PC + 1) % 65536 +
        sign_extend (bits (fetch stiDemo) 8 0) 9) % 65536 ∧
      0x3002 ≠ MR_KBSR ∧ stiDemo.vm.memory 0x3002 = 0x4000) ∧
    (step true stiDemo).2.vm.memory 0x4000 = 0x5678 :=
  ⟨by decide,
    by simpa using (sti_step_spec true stiDemo 0x3002 (by decide) (by decide) (by decide)).2.1⟩

/-- C19. For every state whose fetched instruction is the PUTS trap and in which some
word at an address in R0..0xFFFF is zero, `z` being the lowest such address: the step keeps
running and appends to the output exactly `z - R0` characters, the `i`-th being the low 8
bits of `memory[R0 + i]`, in increasing address order; nothing is printed for the zero
word, and nothing at all when R0 points at a zero word; no input is consumed, and memory,
R0-R6 and CondFlag are unchanged. -/
theorem puts_trap_spec (cs : Bool) (m : Machine) (z : Nat)
    (h : fetch m >>> 12 = OP_TRAP) (hv : bits (fetch m) 7 0 = TRAP_PUTS)
    (hr0 : m.vm.regstr R_R0 ≤ z) (hz : z ≤ 0xFFFF) (hzero : m.vm.memory z = 0)
    (hlow : ∀ a, m.vm.regstr R_R0 ≤ a → a < z → m.vm.memory a ≠ 0) :
    (step cs m).1 = Status.running ∧
    (step cs m).2.tty.stdout =
      m.tty.stdout ++ putsOutput m.vm.memory (m.vm.regstr R_R0) (z - m.vm.regstr R_R0) ∧
    (putsOutput m.vm.memory (m.vm.regstr R_R0) (z - m.vm.regstr R_R0)).length =
      z - m.vm.regstr R_R0 ∧
    (∀ i, i < z - m.vm.regstr R_R0 →
      (putsOutput m.vm.memory (m.vm.regstr R_R0) (z - m.vm.regstr R_R0))[i]? =
        some (m.vm.memory (m.vm.regstr R_R0 + i) % 256)) ∧
    (z = m.vm.regstr R_R0 → (step cs m).2.tty.stdout = m.tty.stdout) ∧
    (step cs m).2.tty.stdin = m.tty.stdin ∧
    (step cs m).2.tty.ready = m.tty.ready ∧
    (step cs m).2.vm.memory = m.vm.memory ∧
    (∀ i, i ≤ 6 → (step cs m).2.vm.regstr i = m.vm.regstr i) ∧
    (step cs m).2.vm.regstr R_CD = m.vm.regstr R_CD := by
  have hR0 : (afterFetch m).vm.regstr R_R0 = m.vm.regstr R_R0 :=
    afterFetch_regstr_of_ne m _ (by decide)
  have hloop := puts_loop_spec cs m.vm.memory (z - m.vm.regstr R_R0) (m.vm.regstr R_R0)
    (MEMORY_MAX - m.vm.regstr R_R0) m.tty
    (fun i hi => hlow _ (by omega) (by omega))
    (by rw [show m.vm.regstr R_R0 + (z - m.vm.regstr R_R0) = z by omega]; exact hzero)
    (by rw [MEMORY_MAX_eq]; omega)
  have hstep : step cs m = (Status.running,
      { vm := setReg (afterFetch m).vm R_R7 ((afterFetch m).vm.regstr R_PC),
        tty :=
          { ready := m.tty.ready,
            stdin := m.tty.stdin,
            stdout :=
              m.tty.stdout ++
                putsOutput m.vm.memory (m.vm.regstr R_R0) (z - m.vm.regstr R_R0) } }) := by
    rw [step_trap cs m h, op_trap_puts cs _ _ hv]
    simp only [afterFetch_memory, hR0, afterFetch_tty, hloop]
  obtain ⟨f1, f2, f3⟩ := trap_frame m
  refine ⟨by rw [hstep], by rw [hstep], putsOutput_length _ _ _,
    fun i hi => putsOutput_get _ _ _ _ hi, ?_, by rw [hstep], by rw [hstep],
    by rw [hstep]; exact f1, by rw [hstep]; exact f2, by rw [hstep]; exact f3⟩
  intro e
  rw [hstep, e]
  simp [putsOutput]

/-- Witness of C19: PUTS on `putsDemo` prints the two bytes 0x48 and 0x69. -/
theorem puts_trap_spec_witness :
    (fetch putsDemo >>> 12 = OP_TRAP ∧ bits (fetch putsDemo) 7 0 = TRAP_PUTS ∧
      putsDemo.vm.regstr R_R0 ≤ 0x4002 ∧ 0x4002 ≤ 0xFFFF ∧ putsDemo.vm.memory 0x4002 = 0 ∧
      ∀ a, putsDemo.vm.regstr R_R0 ≤ a → a < 0x4002 → putsDemo.vm.memory a ≠ 0) ∧
    (step true putsDemo).2.tty.stdout = [0x48, 0x69] :=
  have hlow : ∀ a, putsDemo.vm.regstr R_R0 ≤ a → a < 0x4002 → putsDemo.vm.memory a ≠ 0 := by
    intro a h1 h2
    have h3 : putsDemo.vm.regstr R_R0 = 0x4000 := by decide
    rw [h3] at h1
    have : a = 0x4000 ∨ a = 0x4001 := by omega
    rcases this with e | e <;> rw [e] <;> decide
  ⟨⟨by decide, by decide, by decide, by decide, by decide, hlow⟩,
    (puts_trap_spec true putsDemo 0x4002 (by decide) (by decide) (by decide) (by decide)
      (by decide) hlow).2.1.trans (by decide)⟩

/-- C20. For every state of 16-bit words whose fetched instruction is the PUTSP trap and
in which some word at an address in R0..0xFFFF is zero, `z` being the lowest such address:
the step keeps running and appends to the output, for each address from R0 up to but
excluding `z` in increasing order, the low byte of the word (also when it is zero) and then
the high byte iff it is non-zero; nothing is printed for the zero word; no input is
consumed, and memory, R0-R6 and CondFlag are unchanged. -/
theorem putsp_trap_spec (cs : Bool) (m : Machine) (z : Nat) (hwf : m.vm.WF)
    (h : fetch m >>> 12 = OP_TRAP) (hv : bits (fetch m) 7 0 = TRAP_PUTSP)
    (hr0 : m.vm.regstr R_R0 ≤ z) (hz : z ≤ 0xFFFF) (hzero : m.vm.memory z = 0)
    (hlow : ∀ a, m.vm.regstr R_R0 ≤ a → a < z → m.vm.memory a ≠ 0) :
    (step cs m).1 = Status.running ∧
    (step cs m).2.tty.stdout =
      m.tty.stdout ++ putspOutput m.vm.memory (m.vm.regstr R_R0) (z - m.vm.regstr R_R0) ∧
    (∀ w, packedBytes w = if w / 256 = 0 then [w % 256] else [w % 256, w / 256]) ∧
    (∀ c k, putspOutput m.vm.memory c (k + 1) =
      packedBytes (m.vm.memory c) ++ putspOutput m.vm.memory (c + 1) k) ∧
    (∀ c, putspOutput m.vm.memory c 0 = []) ∧
    (step cs m).2.tty.stdin = m.tty.stdin ∧
    (step cs m).2.tty.ready = m.tty.ready ∧
    (step cs m).2.vm.memory = m.vm.memory ∧
    (∀ i, i ≤ 6 → (step cs m).2.vm.regstr i = m.vm.regstr i) ∧
    (step cs m).2.vm.regstr R_CD = m.vm.regstr R_CD := by
  have hR0 : (afterFetch m).vm.regstr R_R0 = m.vm.regstr R_R0 :=
    afterFetch_regstr_of_ne m _ (by decide)
  have hloop := putsp_loop_spec cs m.vm.memory hwf.1 (z - m.vm.regstr R_R0)
    (m.vm.regstr R_R0) (MEMORY_MAX - m.vm.regstr R_R0) m.tty
    (fun i hi => hlow _ (by omega) (by omega))
    (by rw [show m.vm.regstr R_R0 + (z - m.vm.regstr R_R0) = z by omega]; exact hzero)
    (by rw [MEMORY_MAX_eq]; omega)
  have hstep : step cs m = (Status.running,
      { vm := setReg (afterFetch m).vm R_R7 ((afterFetch m).vm.regstr R_PC),
        tty :=
          { ready := m.tty.ready,
            stdin := m.tty.stdin,
            stdout :=
              m.tty.stdout ++
                putspOutput m.vm.memory (m.vm.regstr R_R0) (z - m.vm.regstr R_R0) } }) := by
    rw [step_trap cs m h, op_trap_putsp cs _ _ hv]
    simp only [afterFetch_memory, hR0, afterFetch_tty, hloop]
  obtain ⟨f1, f2, f3⟩ := trap_frame m
  exact ⟨by rw [hstep], by rw [hstep], fun _ => rfl, fun _ _ => rfl, fun _ => rfl,
    by rw [hstep], by rw [hstep], by rw [hstep]; exact f1, by rw [hstep]; exact f2,
    by rw [hstep]; exact f3⟩

/-- Witness of C20: PUTSP on `putspDemo` prints 0x48 0x65, then 0x6C alone, then the zero
low byte followed by 0x21. -/
theorem putsp_trap_spec_witness :
    (putspDemo.vm.WF ∧ fetch putspDemo >>> 12 = OP_TRAP ∧
      bits (fetch putspDemo) 7 0 = TRAP_PUTSP ∧
      putspDemo.vm.regstr R_R0 ≤ 0x4003 ∧ 0x4003 ≤ 0xFFFF ∧ putspDemo.vm.memory 0x4003 = 0 ∧
      ∀ a, putspDemo.vm.regstr R_R0 ≤ a → a < 0x4003 → putspDemo.vm.memory a ≠ 0) ∧
    (step true putspDemo).2.tty.stdout = [0x48, 0x65, 0x6C, 0x00, 0x21] :=
  have hwf : putspDemo.vm.WF :=
    ⟨fun a => by simp only [putspDemo]; split_ifs <;> decide,
     fun r => by simp only [putspDemo]; split_ifs <;> decide⟩
  have hlow : ∀ a, putspDemo.vm.regstr R_R0 ≤ a → a < 0x4003 →
      putspDemo.vm.memory a ≠ 0 := by
    intro a h1 h2
    have h3 : putspDemo.vm.regstr R_R0 = 0x4000 := by decide
    rw [h3] at h1
    have : a = 0x4000 ∨ a = 0x4001 ∨ a = 0x4002 := by omega
    rcases this with e | e | e <;> rw [e] <;> decide
  ⟨⟨hwf, by decide, by decide, by decide, by decide, by decide, hlow⟩,
    (putsp_trap_spec true putspDemo 0x4003 hwf (by decide) (by decide) (by decide)
      (by decide) (by decide) hlow).2.1.trans (by decide)⟩

/-- C21 on the code: the string traps walk a raw pointer, `uint16_t* c = memory + R0` with
`++c`, which does not wrap at the top of the address space.  With R0 = 0xFFFF and a
non-zero word at 0xFFFF (so no word at an address in R0..0xFFFF is zero) both PUTS and
PUTSP print that word and then read past `memory[0xFFFF]`, outside the array: the step
ends in `Status.fault` instead of terminating inside the 16-bit space. -/
theorem string_traps_read_past_memory :
    (fetch putsRunOffDemo >>> 12 = OP_TRAP ∧ bits (fetch putsRunOffDemo) 7 0 = TRAP_PUTS ∧
      putsRunOffDemo.vm.regstr R_R0 = 0xFFFF ∧ putsRunOffDemo.vm.memory 0xFFFF ≠ 0 ∧
      (step true putsRunOffDemo).1 = Status.fault ∧
      (step false putsRunOffDemo).1 = Status.fault) ∧
    (fetch putspRunOffDemo >>> 12 = OP_TRAP ∧ bits (fetch putspRunOffDemo) 7 0 = TRAP_PUTSP ∧
      putspRunOffDemo.vm.regstr R_R0 = 0xFFFF ∧ putspRunOffDemo.vm.memory 0xFFFF ≠ 0 ∧
      (step true putspRunOffDemo).1 = Status.fault ∧
      (step false putspRunOffDemo).1 = Status.fault) := by
  decide

/-- C22. For every byte `b` in 0..255 delivered next by the input device, the GETC trap
keeps running, consumes exactly that character, sets R0 to `b` (high byte 0), sets
CondFlag to ZERO when `b = 0` and to POSITIVE otherwise (never NEGATIVE), writes nothing
to the output, polls nothing, and leaves memory and R1-R6 unchanged. -/
theorem getc_trap_spec (cs : Bool) (m : Machine) (b : Nat) (rest : List Nat)
    (h : fetch m >>> 12 = OP_TRAP) (hv : bits (fetch m) 7 0 = TRAP_GETC)
    (hin : m.tty.stdin = b :: rest) (hb : b ≤ 255) :
    (step cs m).1 = Status.running ∧
    (step cs m).2.tty.stdin = rest ∧
    (step cs m).2.vm.regstr R_R0 = b ∧
    (step cs m).2.vm.regstr R_R0 / 256 = 0 ∧
    (step cs m).2.vm.regstr R_CD = (if b = 0 then COND_Z else COND_P) ∧
    (step cs m).2.vm.regstr R_CD ≠ COND_N ∧
    (step cs m).2.tty.stdout = m.tty.stdout ∧
    (step cs m).2.tty.ready = m.tty.ready ∧
    (step cs m).2.vm.memory = m.vm.memory ∧
    (∀ i, 1 ≤ i → i ≤ 6 → (step cs m).2.vm.regstr i = m.vm.regstr i) := by
  have hstep : step cs m = (Status.running,
      { vm := update_flags
          (setReg (setReg (afterFetch m).vm R_R7 ((afterFetch m).vm.regstr R_PC)) R_R0 b)
          R_R0,
        tty :=
          { ready := m.tty.ready,
            stdin := rest,
            stdout := m.tty.stdout } }) := by
    rw [step_trap cs m h, op_trap_getc cs _ _ hv]
    simp only [afterFetch_tty, getchar_cons m.tty b rest hin,
      toUint16_natCast b (by omega)]
  have hr0 : (step cs m).2.vm.regstr R_R0 = b := by
    rw [hstep]; exact update_flags_setReg_same _ _ _ (by decide)
  have hcd : (step cs m).2.vm.regstr R_CD = (if b = 0 then COND_Z else COND_P) := by
    rw [← classify_byte b hb, hstep]
    exact update_flags_setReg_cd _ _ _ (by omega)
  obtain ⟨_, f2, _⟩ := trap_frame m
  refine ⟨by rw [hstep], by rw [hstep], hr0, by rw [hr0]; omega, hcd, ?_, by rw [hstep],
    by rw [hstep], by rw [hstep]; simp, ?_⟩
  · rw [hcd]; split_ifs <;> decide
  · intro i h1 h6
    rw [hstep]
    show (update_flags _ _).regstr i = _
    rw [update_flags_regstr_of_ne _ _ _ (by simp only [R_CD]; omega)]
    simp only [setReg_regstr]
    rw [Function.update_noteq (by simp only [R_R0]; omega)]
    exact f2 i h6

/-- Witness of C22: GETC on `getcHighDemo` takes the byte 0x80, leaves 0x80 in R0 and
POSITIVE in CondFlag, and writes nothing. -/
theorem getc_trap_spec_witness :
    (fetch getcHighDemo >>> 12 = OP_TRAP ∧ bits (fetch getcHighDemo) 7 0 = TRAP_GETC ∧
      getcHighDemo.tty.stdin = 0x80 :: [0x41] ∧ 0x80 ≤ 255) ∧
    (step true getcHighDemo).2.tty.stdin = [0x41] ∧
    (step true getcHighDemo).2.vm.regstr R_R0 = 0x80 ∧
    (step true getcHighDemo).2.vm.regstr R_CD = COND_P ∧
    (step true getcHighDemo).2.tty.stdout = getcHighDemo.tty.stdout :=
  have h := getc_trap_spec true getcHighDemo 0x80 [0x41] (by decide) (by decide) (by decide)
    (by decide)
  ⟨by decide, h.2.1, h.2.2.1, h.2.2.2.2.1.trans (by decide), h.2.2.2.2.2.2.1⟩

/-- C23 on the code: the IN trap reads into a `char` (`char c = getchar()`) and stores
`(uint16_t)c`, so where `char` is signed a byte of 128 or more is sign-extended.  For the
delivered byte 0x80 the prompt and the byte are written, but R0 becomes 0xFF80 and
CondFlag NEGATIVE, whereas GETC stores 0x80 for the same byte (and so does IN where `char`
is unsigned). -/
theorem in_trap_sign_extends :
    (fetch inHighDemo >>> 12 = OP_TRAP ∧ bits (fetch inHighDemo) 7 0 = TRAP_IN ∧
      inHighDemo.tty.stdin = 0x80 :: [0x41]) ∧
    (step true inHighDemo).2.tty.stdout = promptBytes ++ [0x80] ∧
    (step true inHighDemo).2.vm.regstr R_R0 = 0xFF80 ∧
    (step true inHighDemo).2.vm.regstr R_R0 ≠ 0x80 ∧
    (step true inHighDemo).2.vm.regstr R_CD = COND_N ∧
    (fetch getcHighDemo >>> 12 = OP_TRAP ∧ bits (fetch getcHighDemo) 7 0 = TRAP_GETC ∧
      getcHighDemo.tty.stdin = 0x80 :: [0x41]) ∧
    (step true getcHighDemo).2.vm.regstr R_R0 = 0x80 ∧
    (step false inHighDemo).2.vm.regstr R_R0 = 0x80 := by
  decide

/-- C24. For every state and every step whose opcode is not ST (3), STI (11) or STR (7),
every memory word at an address other than the status address 0xFE00 and the data address
0xFE02 has the same value after the step as before it, whatever the terminal holds. -/
theorem only_stores_write_memory (cs : Bool) (m : Machine)
    (h3 : fetch m >>> 12 ≠ OP_ST) (h11 : fetch m >>> 12 ≠ OP_STI)
    (h7 : fetch m >>> 12 ≠ OP_STR) :
    ∀ a, a ≠ MR_KBSR → a ≠ MR_KBDR → (step cs m).2.vm.memory a = m.vm.memory a :=
  fun a ha1 ha2 => step_memory_frame cs m h3 h11 h7 a ha1 ha2

/-- Witness of C24: `LD R1, #0` on `ldStatusDemo` reads the status address with a key
waiting, which rewrites the two keyboard words, and memory[0x4000] still holds 9. -/
theorem only_stores_write_memory_witness :
    (fetch ldStatusDemo >>> 12 ≠ OP_ST ∧ fetch ldStatusDemo >>> 12 ≠ OP_STI ∧
      fetch ldStatusDemo >>> 12 ≠ OP_STR ∧ (0x4000 : Nat) ≠ MR_KBSR ∧
      (0x4000 : Nat) ≠ MR_KBDR) ∧
    (step true ldStatusDemo).2.vm.memory MR_KBSR = 0x8000 ∧
    (step true ldStatusDemo).2.vm.memory MR_KBDR = 65 ∧
    (step true ldStatusDemo).2.vm.memory 0x4000 = 9 :=
  ⟨by decide, by decide, by decide,
    (only_stores_write_memory true ldStatusDemo (by decide) (by decide) (by decide) 0x4000
      (by decide) (by decide)).trans (by decide)⟩

end LC3
